import Mathlib

/-!
Verification development for the tmux monitoring / completion detection engine
and the confirmation-autopilot command injector of the codex-code-remote
repository.

Pane contents are modelled as their list of lines (the JavaScript code holds a
single string and calls `split('\n')` / `join('\n')`; lines produced by that
split never contain a newline, so the two views are interchangeable and we keep
the line list).  Machine strings are Lean `String`s, character scans are done on
`List Char`.  Every JS regular-expression test used by the engine is embedded
as an executable character-level matcher with the exact JS semantics (`.` does
not match a newline, `\s` matches whitespace including newlines, `^`/`$` anchor
to the whole string unless the `m` flag is present).
-/

namespace CodexRemote

/-- JS whitespace class (the ASCII part of `\s` plus NBSP), also used for
`String.prototype.trim`. -/
def isJsWs (c : Char) : Bool :=
  c == ' ' || c == '\t' || c == '\n' || c == '\r' || c == '\x0b' || c == '\x0c' || c == ' '

/-- Drop leading JS whitespace. -/
def dropWs (l : List Char) : List Char := l.dropWhile isJsWs

/-- `String.prototype.trim` on a character list. -/
def jsTrimL (l : List Char) : List Char :=
  ((l.dropWhile isJsWs).reverse.dropWhile isJsWs).reverse

/-- `String.prototype.trim`. -/
def jsTrim (s : String) : String := String.mk (jsTrimL s.data)

/-- `pat` is a prefix of `l` (character-wise). -/
def leadsWith : List Char → List Char → Bool
  | [], _ => true
  | _ :: _, [] => false
  | p :: ps, c :: cs => p == c && leadsWith ps cs

/-- `String.prototype.includes` on character lists. -/
def listContains : List Char → List Char → Bool
  | [], pat => pat.isEmpty
  | l@(_ :: rest), pat => leadsWith pat l || listContains rest pat

/-- `String.prototype.includes`. -/
def sContains (s pat : String) : Bool := listContains s.data pat.data

/-- Lower-case a character list (ASCII, enough for the `i` regex flag on the
patterns used by the engine). -/
def lowerL (l : List Char) : List Char := l.map Char.toLower

/-- Case-insensitive `includes`, i.e. `/pat/i.test(s)` for a literal `pat`. -/
def ciContainsStr (s pat : String) : Bool :=
  listContains (lowerL s.data) (lowerL pat.data)

/-- Does some suffix of the list satisfy `p`?  Workhorse for regex searches. -/
def anySuffix (p : List Char → Bool) : List Char → Bool
  | [] => p []
  | c :: r => p (c :: r) || anySuffix p r

/-- After a `.*` (which cannot cross a newline), does `pat` occur before the
next newline (or at any position up to it)? -/
def afterNoNl (pat : List Char) : List Char → Bool
  | [] => leadsWith pat []
  | c :: r => leadsWith pat (c :: r) || (c != '\n' && afterNoNl pat r)

/-- `/pat1.*pat2/` : `pat1` somewhere, then `pat2` later with no newline in
between (JS `.` does not match `\n`). -/
def seqSameLine (pat1 pat2 : List Char) : List Char → Bool
  | [] => false
  | c :: r =>
    (leadsWith pat1 (c :: r) && afterNoNl pat2 ((c :: r).drop pat1.length)) ||
      seqSameLine pat1 pat2 r

/-- After one required digit: keep consuming digits until an `s` (for
`/\d+s/`). -/
def digitsLoopS : List Char → Bool
  | [] => false
  | c :: r => c == 's' || (c.isDigit && digitsLoopS r)

/-- `/\d+s/` anchored at the head of the list. -/
def digitsThenS : List Char → Bool
  | [] => false
  | c :: r => c.isDigit && digitsLoopS r

/-- `/intro\d+s/` anywhere in the list (used for `/Worked for \d+s/i` on
lower-cased text with `intro = "worked for "`). -/
def workedForPat (intro : List Char) (l : List Char) : Bool :=
  anySuffix (fun t => leadsWith intro t && digitsThenS (t.drop intro.length)) l

/-- `/•\s+word/` : a bullet, at least one whitespace (newlines allowed), then
`word`. -/
def bulletThenWord (w : List Char) (l : List Char) : Bool :=
  anySuffix (fun t =>
    match t with
    | '•' :: c :: r => isJsWs c && leadsWith w (dropWs (c :: r))
    | _ => false) l

/-- `/^•\s+/m` : a line starting with a bullet followed by at least one
whitespace character (a newline counts).  The boolean tracks whether the
current position is a line start. -/
def bulletAtLineStart : Bool → List Char → Bool
  | _, [] => false
  | atStart, '•' :: r =>
    (atStart && (match r with | c :: _ => isJsWs c | [] => false)) ||
      bulletAtLineStart false r
  | _, '\n' :: r => bulletAtLineStart true r
  | _, _ :: r => bulletAtLineStart false r

/-- `/^•\s+/m` (also `/(^|\n)•\s+/m`, which is equivalent). -/
def matchBulletM (l : List Char) : Bool := bulletAtLineStart true l

/-- Scan (after a `╰`, on the same line) for a `╯` whose remaining suffix is
all whitespace, for `/╰.*╯\s*$/` ( `$` is the end of the whole string). -/
def closeThenWsEnd : List Char → Bool
  | [] => false
  | '╯' :: r => r.all isJsWs || closeThenWsEnd r
  | '\n' :: _ => false
  | _ :: r => closeThenWsEnd r

/-- `/╰.*╯\s*$/` without the `m` flag. -/
def matchBoxEnd (l : List Char) : Bool :=
  anySuffix (fun t => match t with | '╰' :: r => closeThenWsEnd r | _ => false) l

/-- `/^\s*mark\s*$/` without the `m` flag: the whole string is whitespace
around a single marker character. -/
def wholeWsMarkWs (mark : Char) (l : List Char) : Bool :=
  match dropWs l with
  | c :: r => c == mark && r.all isJsWs
  | [] => false

/-- After `ESC [`, consume `[0-9;]*` and a final `m`; `some rest` on success. -/
def ansiBody : List Char → Option (List Char)
  | [] => none
  | c :: r =>
    if c == 'm' then some r
    else if c.isDigit || c == ';' then ansiBody r
    else none

theorem ansiBody_length_lt : ∀ {l r : List Char}, ansiBody l = some r → r.length < l.length := by
  intro l
  induction l with
  | nil => intro r h; simp [ansiBody] at h
  | cons c cs ih =>
    intro r h
    simp only [ansiBody] at h
    split_ifs at h with h1 h2
    · injection h with h
      subst h
      simp
    · have := ih h
      simp only [List.length_cons]
      omega

/-- Recursion worker for the ANSI stripper.  The fuel only bounds the
recursion depth; by `ansiBody_length_lt` each step strictly shortens the list,
so fuel equal to the list length (as used by `stripAnsiL`) is never
exhausted. -/
def stripAnsiGo : Nat → List Char → List Char
  | 0, l => l
  | _, [] => []
  | fuel + 1, c :: rest =>
    if c = '\x1b' then
      match rest with
      | '[' :: r2 =>
        match ansiBody r2 with
        | some r3 => stripAnsiGo fuel r3
        | none => c :: stripAnsiGo fuel rest
      | _ => c :: stripAnsiGo fuel rest
    else c :: stripAnsiGo fuel rest

/-- `String.replace(/\u001b\[[0-9;]*m/g, '')` : strip ANSI colour sequences. -/
def stripAnsiL (l : List Char) : List Char := stripAnsiGo l.length l

/-- `_stripAnsi`. -/
def stripAnsiStr (s : String) : String := String.mk (stripAnsiL s.data)

/-- Consume `\s*` and one optional border glyph (`│` or `|`) followed by
`\s*`; shared head of the three prompt-line regexes. -/
def afterBorder (l : List Char) : List Char :=
  match dropWs l with
  | c :: r => if c == '│' || c == '|' then dropWs r else c :: r
  | [] => []

/-- `/^\s*(?:[│|]\s*)?›\s+\S/` on an ANSI-stripped character list. -/
def promptCore (l : List Char) : Bool :=
  match afterBorder l with
  | '›' :: r =>
    (match r with
     | c :: _ => isJsWs c && !(dropWs r).isEmpty
     | [] => false)
  | _ => false

/-- `_isPromptLine`. -/
def isPromptLineStr (s : String) : Bool := promptCore (stripAnsiL s.data)

/-- `/^\s*(?:[│|]\s*)?›\s*(?:[│|]\s*)?$/` on an ANSI-stripped list. -/
def promptOnlyCore (l : List Char) : Bool :=
  match afterBorder l with
  | '›' :: r =>
    (match dropWs r with
     | [] => true
     | c :: r2 => (c == '│' || c == '|') && (dropWs r2).isEmpty)
  | _ => false

/-- `_isPromptOnlyLine`. -/
def isPromptOnlyStr (s : String) : Bool := promptOnlyCore (stripAnsiL s.data)

/-- `replace(/^\s*(?:[│|]\s*)?›\s+/, '')` : strip the prompt marker prefix
(if it matches; otherwise the line is unchanged). -/
def stripPromptPfxL (l : List Char) : List Char :=
  match afterBorder l with
  | '›' :: r =>
    (match r with
     | c :: _ => if isJsWs c then dropWs r else l
     | [] => l)
  | _ => l

/-- Prompt-marker prefix removal on strings. -/
def stripPromptPfx (s : String) : String := String.mk (stripPromptPfxL s.data)

/-- Characters allowed by the pure-border-row regex class `[\s╭╰│─┤┐┘┌└]`. -/
def uiBorderChar (c : Char) : Bool :=
  isJsWs c || c == '╭' || c == '╰' || c == '│' || c == '─' || c == '┤' ||
    c == '┐' || c == '┘' || c == '┌' || c == '└'

/-- The `isUiLine` helper used by conversation extraction: help footer,
context-budget footer, or a pure border row. -/
def isUiLine (s : String) : Bool :=
  sContains s "? for shortcuts" || sContains s "context left" ||
    (!s.data.isEmpty && s.data.all uiBorderChar)

/-- A footer / status line in the sense of the specification, which is exactly
what the engine's own `isUiLine` recognises. -/
def isFooterLine (s : String) : Bool := isUiLine s

/-- `join('\n')`. -/
def strOfLines : List String → String
  | [] => ""
  | [l] => l
  | l :: ls => l ++ "\n" ++ strOfLines ls

/-- `Array.prototype.slice(-n)`. -/
def takeLast (n : Nat) (l : List α) : List α := l.drop (l.length - n)

/-- Index of the last element satisfying `p` (the JS loops that scan from the
end of the line array). -/
def findLastIdx (p : α → Bool) : List α → Option Nat
  | [] => none
  | x :: xs =>
    match findLastIdx p xs with
    | some k => some (k + 1)
    | none => if p x then some 0 else none

/-- `lines[i]` (indices produced by `findLastIdx` are always in range). -/
def getLine (ls : List String) (i : Nat) : String := ls.getD i ""

/-- Truthiness of a pane content viewed as a string: `''` is falsy. -/
def isEmptyContent (ls : List String) : Bool := strOfLines ls == ""

/-- Result of `extractConversation` (the public extractor). -/
structure ConvQR where
  userQuestion : String
  claudeResponse : String
deriving Repr, DecidableEq

/-- Result of `_extractRecentConversation` / `_detectTelegramDoneCompletion`. -/
structure Conversation where
  userQuestion : String
  claudeResponse : String
  fullContext : String
deriving Repr, DecidableEq

/-- The response-collection loop shared by `extractConversation` and
`_extractRecentConversation`: per line, trim; skip empties; break at a prompt
line; skip prompt-only and UI-chrome lines; keep the trimmed content line. -/
def collectLoop : List String → List String
  | [] => []
  | l :: rest =>
    let t := jsTrim l
    if t == "" then collectLoop rest
    else if isPromptLineStr t then []
    else if isPromptOnlyStr t then collectLoop rest
    else if isUiLine t then collectLoop rest
    else t :: collectLoop rest

/-- `extractConversation(text)` (the pane text is given as its line list).
The `traceCapture.recordUserInput` side effect has no bearing on the returned
value and is omitted. -/
def extractConversation (lines : List String) : ConvQR :=
  let pIdx := findLastIdx (fun l => isPromptLineStr (jsTrim l)) lines
  let uq0 := match pIdx with
    | some i => jsTrim (stripPromptPfx (jsTrim (getLine lines i)))
    | none => ""
  let responseLines := match pIdx with
    | some i => collectLoop (lines.drop (i + 1))
    | none => []
  let uq := if uq0 == "" then
      match findLastIdx (fun l => jsTrim l != "" && !isUiLine (jsTrim l)) lines with
      | some j => jsTrim (getLine lines j)
      | none => ""
    else uq0
  let cr := jsTrim (strOfLines responseLines)
  ⟨if uq == "" then "No user input" else uq,
   if cr == "" then "No response" else cr⟩

/-- `_extractRecentConversation(fullContent)`. -/
def extractRecentConversation (full : List String) : Conversation :=
  let lines := takeLast 200 full
  let pIdx := findLastIdx (fun l => isPromptLineStr (jsTrim l)) lines
  let uq0 := match pIdx with
    | some i => jsTrim (stripPromptPfx (jsTrim (getLine lines i)))
    | none => ""
  let responseStart := match pIdx with
    | some i => i + 1
    | none => lines.length - 40
  let responseLines := collectLoop (lines.drop responseStart)
  let uq := if uq0 == "" && pIdx.isNone then
      match findLastIdx
          (fun l => jsTrim l != "" && !isUiLine (jsTrim l) && !isPromptOnlyStr (jsTrim l))
          (lines.take responseStart) with
      | some j => jsTrim (getLine (lines.take responseStart) j)
      | none => ""
    else uq0
  let cr0 := jsTrim (strOfLines responseLines)
  let cr := if cr0 == "" then
      jsTrim (strOfLines (((lines.drop (max responseStart (lines.length - 40))).map jsTrim).filter
        (fun t => t != "" && !isUiLine t && !isPromptOnlyStr t)))
    else cr0
  ⟨if uq == "" then "Recent command" else uq,
   if cr == "" then "Task completed" else cr,
   strOfLines lines⟩

/-- The response loop of `_detectTelegramDoneCompletion` (index-aware because
of the `i > promptIndex` guard on the break condition). -/
def tdCollect (promptIdx : Option Nat) : List (Nat × String) → List String
  | [] => []
  | (i, l) :: rest =>
    let t := jsTrim (stripAnsiStr l)
    if t == "" then tdCollect promptIdx rest
    else if (match promptIdx with
             | some p => decide (p < i)
             | none => true) && isPromptLineStr t then []
    else if isPromptOnlyStr t then tdCollect promptIdx rest
    else if isUiLine t then tdCollect promptIdx rest
    else if ciContainsStr t "After task is completed, write \"Telegram done\" here" then
      tdCollect promptIdx rest
    else t :: tdCollect promptIdx rest

/-- `_detectTelegramDoneCompletion(paneText)`; the mutable
`lastTelegramDoneKey` field is threaded explicitly. -/
def detectTelegramDoneCompletion (lastKey : String) (pane : List String) :
    String × Option Conversation :=
  if isEmptyContent pane then (lastKey, none)
  else
    let lines := pane
    match findLastIdx (fun l => ciContainsStr l "Telegram done") lines with
    | none => (lastKey, none)
    | some lastIdx =>
      let pIdx := findLastIdx (fun l => isPromptLineStr l) (lines.take (lastIdx + 1))
      let promptLine := match pIdx with
        | some i => jsTrim (stripPromptPfx (stripAnsiStr (getLine lines i)))
        | none => ""
      let doneLine := jsTrim (stripAnsiStr (getLine lines lastIdx))
      let key := if promptLine == "" then toString lastIdx ++ "::" ++ doneLine
        else promptLine ++ "::" ++ doneLine
      if key == lastKey then (lastKey, none)
      else
        let responseStart := match pIdx with
          | some i => i + 1
          | none => lastIdx - 40
        let responseLines := tdCollect pIdx (lines.enum.drop responseStart)
        let cr := jsTrim (strOfLines responseLines)
        (key, some ⟨if promptLine == "" then "Recent command" else promptLine,
                    if cr == "" then "Task completed" else cr,
                    strOfLines ((lines.take (lastIdx + 10)).drop (responseStart - 5))⟩)

/-- `String.prototype.slice(-n)` on characters. -/
def strTakeRight (s : String) (n : Nat) : String :=
  String.mk (s.data.drop (s.data.length - n))

/-- Position of the first match of `pat` (as a character list). -/
def idxOfMatch (pat : List Char) : List Char → Nat
  | [] => 0
  | l@(_ :: r) => if leadsWith pat l then 0 else idxOfMatch pat r + 1

/-- `response.match(/pat/i)?.index || 0` : index of the first case-insensitive
match, `0` when there is none. -/
def firstIdxCI (s pat : String) : Nat :=
  if listContains (lowerL s.data) (lowerL pat.data) then
    idxOfMatch (lowerL pat.data) (lowerL s.data)
  else 0

/-- `_detectCompletionFromPane(paneText)`; the mutable `lastCompletionKey`
dedup slot is threaded explicitly. -/
def detectCompletionFromPane (lastKey : String) (pane : List String) : String × Bool :=
  if isEmptyContent pane then (lastKey, false)
  else
    let conversation := extractRecentConversation pane
    let response := conversation.claudeResponse
    if response == "" then (lastKey, false)
    else
      let hasTelegramDone := ciContainsStr response "Telegram done"
      let hasWorkedForSig := workedForPat "worked for ".data (lowerL response.data) ||
        workedForPat "─ worked for ".data (lowerL response.data)
      let hasSummary := matchBulletM response.data || ciContainsStr response "(no output)"
      if hasTelegramDone then
        let key := conversation.userQuestion ++ "::" ++
          toString (firstIdxCI response "Telegram done")
        if key == lastKey then (lastKey, false) else (key, true)
      else if !(hasWorkedForSig || hasSummary) then (lastKey, false)
      else
        let key := conversation.userQuestion ++ "::" ++ strTakeRight response 500
        if key == lastKey then (lastKey, false) else (key, true)

/-- The `completionIndicators` list of `_detectResponseCompletion`, tested
against a joined line list. -/
def indicatorsMatch (ls : List String) : Bool :=
  let cs := (strOfLines ls).data
  let lcs := lowerL cs
  seqSameLine "the file".data "has been updated".data lcs ||
  listContains lcs "file created successfully".data ||
  listContains lcs "successfully".data ||
  listContains lcs "completed".data ||
  listContains cs "✅".data ||
  listContains lcs "done".data ||
  listContains lcs "context left".data ||
  workedForPat "worked for ".data lcs ||
  listContains lcs "(no output)".data ||
  matchBulletM cs ||
  listContains lcs "if you want".data

/-- `_detectResponseCompletion(recentText, bufferText, paneText)`. -/
def detectResponseCompletion (recent bufferSlice pane : List String) : Bool :=
  let source := if !isEmptyContent pane then pane
    else if !isEmptyContent bufferSlice then bufferSlice else recent
  let tailLs := (takeLast 8 source).filter (fun l => jsTrim l != "")
  if tailLs.any (fun l => isPromptOnlyStr l) then true
  else
    let hasClaudeResponse := listContains (strOfLines bufferSlice).data "⏺".data ||
      listContains (strOfLines recent).data "⏺".data
    let hasBoxStart := seqSameLine "╭".data "╮".data (strOfLines recent).data
    let hasBoxEnd := seqSameLine "╰".data "╯".data (strOfLines recent).data
    let isCompleteResponse := hasClaudeResponse && (hasBoxStart || hasBoxEnd)
    indicatorsMatch recent || indicatorsMatch bufferSlice || isCompleteResponse

/-- The constructor-installed `completionPatterns` array, tested against a
joined line list. -/
def completionPatternsMatch (ls : List String) : Bool :=
  let cs := (strOfLines ls).data
  let lcs := lowerL cs
  seqSameLine "task".data "completed".data lcs ||
  seqSameLine "successfully".data "completed".data lcs ||
  seqSameLine "completed".data "successfully".data lcs ||
  seqSameLine "implementation".data "complete".data lcs ||
  seqSameLine "changes".data "made".data lcs ||
  seqSameLine "created".data "successfully".data lcs ||
  seqSameLine "updated".data "successfully".data lcs ||
  seqSameLine "file".data "created".data lcs ||
  seqSameLine "file".data "updated".data lcs ||
  listContains lcs "finished".data ||
  listContains lcs "done".data ||
  listContains cs "✅".data ||
  listContains lcs "all set".data ||
  listContains lcs "ready".data ||
  seqSameLine "the file".data "has been updated".data lcs ||
  listContains lcs "file created successfully".data ||
  listContains lcs "command executed successfully".data ||
  listContains lcs "operation completed".data ||
  listContains lcs "context left".data ||
  workedForPat "worked for ".data lcs ||
  bulletThenWord "edited".data lcs ||
  bulletThenWord "updated".data lcs ||
  matchBulletM cs ||
  listContains lcs "(no output)".data ||
  listContains lcs "if you want".data ||
  matchBoxEnd cs ||
  wholeWsMarkWs '>' cs ||
  wholeWsMarkWs '›' cs

/-- `_detectTaskCompletion(recentText, bufferText)`. -/
def detectTaskCompletion (recent bufferSlice : List String) : Bool :=
  completionPatternsMatch recent || completionPatternsMatch bufferSlice

/-- The `meaningfulWaitingPatterns` list of
`_shouldTriggerWaitingNotification`. -/
def meaningfulWaitingMatch (ls : List String) : Bool :=
  let lcs := lowerL (strOfLines ls).data
  seqSameLine "waiting".data "for".data lcs ||
  seqSameLine "need".data "input".data lcs ||
  seqSameLine "please".data "provide".data lcs ||
  seqSameLine "what".data "would you like".data lcs ||
  listContains lcs "do you want".data ||
  listContains lcs "would you like".data ||
  listContains lcs "context left".data

/-- `_shouldTriggerWaitingNotification(recentText)`. -/
def shouldTriggerWaitingNotification (ls : List String) : Bool :=
  meaningfulWaitingMatch ls && !(listContains (strOfLines ls).data "? for shortcuts".data)

/-- The mutable fields of a `TmuxMonitor` instance that the monitoring loop
reads or writes (the timer handle is modelled by a count of live timers). -/
structure MonitorState where
  sessionName : String
  isMonitoring : Bool
  timers : Nat
  lastPaneContent : List String
  outputBuffer : List String
  lastCompletionTail : String
  lastCompletionKey : String
  lastTelegramDoneKey : String
deriving Repr, DecidableEq

/-- Constructor state: `lastPaneContent = ''`, empty buffer, empty dedup
keys, not monitoring, no timer. -/
def initialMonitorState (name : String) : MonitorState :=
  ⟨name, false, 0, [""], [], "", "", ""⟩

/-- Events emitted to listeners (`taskCompleted` / `waitingForInput`). -/
inductive MonitorEvent where
  | taskCompleted (conversation : Conversation) (newOutput : List String)
  | waitingForInput (conversation : Conversation) (newOutput : List String)
deriving Repr, DecidableEq

def isWaitingEv : MonitorEvent → Bool
  | .waitingForInput _ _ => true
  | _ => false

def isCompletedEv : MonitorEvent → Bool
  | .taskCompleted _ _ => true
  | _ => false

/-- The index loop of `_getNewLines` in the equal-length case: compare the
aligned tails, collecting changed new lines. -/
def diffTail : List String → List String → List String
  | n :: ns, o :: os => if n == o then diffTail ns os else n :: diffTail ns os
  | _, _ => []

def maxBufferSize : Nat := 1000

/-- `_getNewLines(oldContent, newContent)` on line lists. -/
def getNewLines (oldLines newLines : List String) : List String :=
  let addedLines :=
    if oldLines.length < newLines.length then
      newLines.drop oldLines.length
    else if newLines.length == oldLines.length then
      let k := newLines.length - 5
      diffTail (newLines.drop k) (oldLines.drop k)
    else []
  addedLines.filter (fun l => jsTrim l != "")

/-- `_handleTaskCompletion(newLines, conversationOverride)` : the emitted
event.  The fresh `_captureCurrentContent()` call inside the handler is
modelled by the cycle's capture (the pane is read twice within one cycle). -/
def handleTaskCompletionEv (freshCapture newLines : List String)
    (override : Option Conversation) : MonitorEvent :=
  .taskCompleted
    (match override with
     | some c => c
     | none => extractRecentConversation freshCapture) newLines

/-- `_handleWaitingForInput(newLines)` : the emitted event. -/
def handleWaitingEv (freshCapture newLines : List String) : MonitorEvent :=
  .waitingForInput (extractRecentConversation freshCapture) newLines

/-- `_analyzeNewContent(newLines, currentContent)` : returns the updated
dedup state and the emitted events (at most one). -/
def analyzeNewContent (s : MonitorState) (newLines currentContent freshCapture : List String) :
    MonitorState × List MonitorEvent :=
  let bufferSlice := takeLast 20 s.outputBuffer
  let pane := if !isEmptyContent currentContent then currentContent else s.lastPaneContent
  match detectTelegramDoneCompletion s.lastTelegramDoneKey pane with
  | (k, some conv) =>
    ({s with lastTelegramDoneKey := k},
     [handleTaskCompletionEv freshCapture newLines (some conv)])
  | (k, none) =>
    let s1 := {s with lastTelegramDoneKey := k}
    let pr := detectCompletionFromPane s1.lastCompletionKey pane
    let s2 := {s1 with lastCompletionKey := pr.1}
    if pr.2 then (s2, [handleTaskCompletionEv freshCapture newLines none])
    else
      let hasResponseEnd := detectResponseCompletion newLines bufferSlice pane
      let hasTask := detectTaskCompletion newLines bufferSlice
      if hasTask || hasResponseEnd then
        (s2, [handleTaskCompletionEv freshCapture newLines none])
      else if shouldTriggerWaitingNotification newLines then
        (s2, [handleWaitingEv freshCapture newLines])
      else (s2, [])

/-- `_captureCurrentContent()` : a failed `tmux capture-pane` is caught and
turned into the empty string (one line `""`); it never throws into the loop. -/
def captureContent (cap : Option (List String)) : List String := cap.getD [""]

/-- One poll cycle: `_checkForChanges()` with the capture result as input.
Returns the updated instance state and the emitted events. -/
def checkForChanges (s : MonitorState) (cap : Option (List String)) :
    MonitorState × List MonitorEvent :=
  let currentContent := captureContent cap
  let part1 :=
    if currentContent != s.lastPaneContent then
      let newLines := getNewLines s.lastPaneContent currentContent
      if !newLines.isEmpty then
        let buf0 := s.outputBuffer ++ newLines
        let buf := if maxBufferSize < buf0.length then takeLast maxBufferSize buf0 else buf0
        analyzeNewContent {s with outputBuffer := buf} newLines currentContent currentContent
      else
        let tailLines := (takeLast 20 currentContent).filter (fun l => jsTrim l != "")
        let tailText := strOfLines tailLines
        let lastTailLine := tailLines.getLastD ""
        if isPromptOnlyStr lastTailLine && tailText != "" && tailText != s.lastCompletionTail then
          analyzeNewContent {s with lastCompletionTail := tailText}
            (takeLast 5 tailLines) currentContent currentContent
        else (s, [])
    else (s, [])
  let s1 := part1.1
  let part2 :=
    if !isEmptyContent currentContent && currentContent != s.lastPaneContent then
      match detectTelegramDoneCompletion s1.lastTelegramDoneKey currentContent with
      | (k, some conv) =>
        ({s1 with lastTelegramDoneKey := k},
         [handleTaskCompletionEv currentContent [] (some conv)])
      | (k, none) => ({s1 with lastTelegramDoneKey := k}, [])
    else (s1, [])
  let s2 := part2.1
  let s3 := if currentContent != s.lastPaneContent then
      {s2 with lastPaneContent := currentContent}
    else s2
  (s3, part1.2 ++ part2.2)

/-- `_sessionExists()` : `tmux list-sessions` either fails (`none`, caught and
turned into `false`) or yields the session-name list. -/
def sessionExists (name : String) (sessions : Option (List String)) : Bool :=
  match sessions with
  | none => false
  | some l => l.contains name

/-- What `start()` produced: the (possibly unchanged) instance state, the
thrown error if any, and whether the session list was queried. -/
structure StartResult where
  state : MonitorState
  error : Option String
  verifiedSession : Bool
deriving Repr, DecidableEq

/-- `start()`.  When already monitoring it only logs and returns.  Otherwise
the session is verified; a missing session throws and leaves every field
untouched; on success monitoring begins and the polling timer is scheduled
(the initial discarded `_captureCurrentContent()` call changes no state). -/
def startMonitor (s : MonitorState) (sessions : Option (List String)) : StartResult :=
  if s.isMonitoring then ⟨s, none, false⟩
  else if !sessionExists s.sessionName sessions then
    ⟨s, some ("Tmux session \x27" ++ s.sessionName ++ "\x27 not found"), true⟩
  else
    ⟨{s with isMonitoring := true, timers := s.timers + 1}, none, true⟩

/-- `stop()` : idempotent; clears the timer. -/
def stopMonitor (s : MonitorState) : MonitorState :=
  if !s.isMonitoring then s
  else {s with isMonitoring := false, timers := 0}

/-- Timer sanity invariant tying the `isMonitoring` flag to the number of
live polling timers. -/
def monInv (s : MonitorState) : Prop :=
  (s.isMonitoring = true → s.timers = 1) ∧ (s.isMonitoring = false → s.timers = 0)

/-! ### The confirmation autopilot (`injectCommand` / `handleConfirmations`) -/

/-- Observable actions of the autopilot: awaited delays, pane captures and
keystroke sends. -/
inductive CAction where
  | delayMs (n : Nat)
  | capturePane
  | sendKeys (k : String)
deriving Repr, DecidableEq

/-- How the `handleConfirmations` loop ended. -/
inductive ConfirmOutcome where
  | idlePrompt
  | errorDetected
  | captureFailed
  | exhausted
deriving Repr, DecidableEq

/-- A run of `handleConfirmations`: its action trace, the number of loop
iterations performed, and how it stopped. -/
structure ConfirmRun where
  trace : List CAction
  attempts : Nat
  outcome : ConfirmOutcome
deriving Repr, DecidableEq

/-- Multi-option confirmation dialog. -/
def multiCond (o : String) : Bool :=
  sContains o "Do you want to proceed?" &&
    (sContains o "1. Yes" || sContains o "2. Yes, and don\x27t ask again")

/-- Single-option confirmation (the source literals are kept byte-for-byte,
mojibake included). -/
def singleCond (o : String) : Bool :=
  sContains o "â¯ 1. Yes" || sContains o "â–· 1. Yes"

/-- Simple y/n confirmation. -/
def ynCond (o : String) : Bool :=
  sContains o "(y/n)" || sContains o "[Y/n]" || sContains o "[y/N]"

/-- Press-Enter-to-continue cue. -/
def enterCond (o : String) : Bool :=
  sContains o "Press Enter to continue" || sContains o "Enter to confirm" ||
    sContains o "Press Enter"

/-- Still-executing cue. -/
def execCond (o : String) : Bool :=
  sContains o "Claudingâ€¦" || sContains o "Waitingâ€¦" ||
    sContains o "Processingâ€¦" || sContains o "Workingâ€¦"

/-- Fresh idle input prompt with no pending dialog markers. -/
def idleCond (o : String) : Bool :=
  (sContains o "â”‚ >" || sContains o "> ") &&
    !sContains o "Do you want to proceed?" && !sContains o "1. Yes" && !sContains o "(y/n)"

/-- Error marker. -/
def errCond (o : String) : Bool :=
  sContains o "Error:" || sContains o "error:" || sContains o "failed"

/-- Ordered branch decision of one loop body over a captured output. -/
inductive StepBranch where
  | multi | single | yn | pressEnter | executing | idle | errorStop | nothingDetected
deriving Repr, DecidableEq

def branchFor (o : String) : StepBranch :=
  if multiCond o then .multi
  else if singleCond o then .single
  else if ynCond o then .yn
  else if enterCond o then .pressEnter
  else if execCond o then .executing
  else if idleCond o then .idle
  else if errCond o then .errorStop
  else .nothingDetected

def matchesAnyBranch (o : String) : Bool :=
  multiCond o || singleCond o || ynCond o || enterCond o || execCond o || idleCond o || errCond o

/-- Send a selection keystroke; only if that send succeeded, wait 300ms and
send `Enter` (a failed `Enter` is merely logged). -/
def sendPlusEnter (sendOk : Nat → Bool) (sc : Nat) (k : String) : List CAction × Nat :=
  if sendOk sc then ([.sendKeys k, .delayMs 300, .sendKeys "Enter"], sc + 2)
  else ([.sendKeys k], sc + 1)

def maxAttempts : Nat := 8

/-- The `while (attempts < maxAttempts)` body of `handleConfirmations`.
`cap n` is the result of the capture during attempt `n` (`none` = failed
capture), `sendOk i` the success of the `i`-th keystroke send; `fuel` is the
number of iterations the `attempts < maxAttempts` guard still allows. -/
def handleConfirmGo (cap : Nat → Option String) (sendOk : Nat → Bool) :
    Nat → Nat → Nat → ConfirmRun
  | 0, attempts, _ => ⟨[], attempts, .exhausted⟩
  | fuel + 1, attempts, sc =>
    let a := attempts + 1
    match cap a with
    | none => ⟨[.delayMs 1500, .capturePane], a, .captureFailed⟩
    | some o =>
      match branchFor o with
      | .multi =>
        let se := sendPlusEnter sendOk sc "2"
        let r := handleConfirmGo cap sendOk fuel a se.2
        ⟨[.delayMs 1500, .capturePane] ++ se.1 ++ [.delayMs 2000] ++ r.trace,
         r.attempts, r.outcome⟩
      | .single =>
        let se := sendPlusEnter sendOk sc "1"
        let r := handleConfirmGo cap sendOk fuel a se.2
        ⟨[.delayMs 1500, .capturePane] ++ se.1 ++ r.trace, r.attempts, r.outcome⟩
      | .yn =>
        let se := sendPlusEnter sendOk sc "y"
        let r := handleConfirmGo cap sendOk fuel a se.2
        ⟨[.delayMs 1500, .capturePane] ++ se.1 ++ r.trace, r.attempts, r.outcome⟩
      | .pressEnter =>
        let r := handleConfirmGo cap sendOk fuel a (sc + 1)
        ⟨[.delayMs 1500, .capturePane, .sendKeys "Enter"] ++ r.trace, r.attempts, r.outcome⟩
      | .executing =>
        let r := handleConfirmGo cap sendOk fuel a sc
        ⟨[.delayMs 1500, .capturePane] ++ r.trace, r.attempts, r.outcome⟩
      | .idle => ⟨[.delayMs 1500, .capturePane], a, .idlePrompt⟩
      | .errorStop => ⟨[.delayMs 1500, .capturePane], a, .errorDetected⟩
      | .nothingDetected =>
        let extra := if a < maxAttempts then [CAction.delayMs 2000] else []
        let r := handleConfirmGo cap sendOk fuel a sc
        ⟨[.delayMs 1500, .capturePane] ++ extra ++ r.trace, r.attempts, r.outcome⟩

/-- `handleConfirmations()` : at most 8 attempts, starting from attempt 0 and
keystroke-send counter 0.  The final post-loop capture only feeds a debug log
and is not part of the decision trace. -/
def handleConfirmations (cap : Nat → Option String) (sendOk : Nat → Bool) : ConfirmRun :=
  handleConfirmGo cap sendOk maxAttempts 0 0

/-- Result of `injectCommand`. -/
structure InjectResult where
  success : Bool
  errMsg : Option String
  confirmations : Option ConfirmRun
deriving Repr, DecidableEq

/-- `injectCommand(command)` : clear the input field, send the command text,
send Enter — any failure resolves `{success:false, error}` immediately and the
confirmation autopilot is never entered; on success `handleConfirmations`
runs and the call resolves `{success:true}`. -/
def injectCommand (clearErr sendErr enterErr : Option String)
    (cap : Nat → Option String) (sendOk : Nat → Bool) : InjectResult :=
  match clearErr with
  | some e => ⟨false, some e, none⟩
  | none =>
    match sendErr with
    | some e => ⟨false, some e, none⟩
    | none =>
      match enterErr with
      | some e => ⟨false, some e, none⟩
      | none => ⟨true, none, some (handleConfirmations cap sendOk)⟩

/-- First failing step's error message. -/
def firstErr : Option String → Option String → Option String → Option String
  | some e, _, _ => some e
  | none, some e, _ => some e
  | none, none, x => x

/-- Keystrokes of a trace, in order. -/
def sendsOf (tr : List CAction) : List String :=
  tr.filterMap (fun a => match a with | .sendKeys k => some k | _ => none)

/-- Number of fixed 1.5s inter-attempt delays in a trace. -/
def count1500 (tr : List CAction) : Nat :=
  tr.countP (fun a => a == .delayMs 1500)

/-! ### Claim theorems: dedup tracking (C1) -/

/-- Claim C1 (counterexample): the dedup invariant fails on the code.  From a
fresh monitor, a pane redraw that only inserts a line above an unchanged
completion tail (same last prompt line `"› do"`, same trailing response
`"resp"`) produces a `CompletionEvent` on each of the two consecutive poll
cycles — two events, where the claim allows at most one — because the
structural-cue completion path performs no dedup at all. -/
theorem claim_C1_counterexample :
    ((checkForChanges (initialMonitorState "codex-real")
        (some ["› do", "resp", "›"])).2.countP (fun e => isCompletedEv e)) = 1 ∧
    ((checkForChanges
        (checkForChanges (initialMonitorState "codex-real")
          (some ["› do", "resp", "›"])).1
        (some ["x", "› do", "resp", "›"])).2.countP (fun e => isCompletedEv e)) = 1 ∧
    (extractRecentConversation ["› do", "resp", "›"]).userQuestion =
      (extractRecentConversation ["x", "› do", "resp", "›"]).userQuestion ∧
    (extractRecentConversation ["› do", "resp", "›"]).claudeResponse =
      (extractRecentConversation ["x", "› do", "resp", "›"]).claudeResponse := by
  decide

theorem dedupSecondCall (td sig : Bool) (K1 K2 k : String) (f : String → String × Bool)
    (hf : ∀ key, f key =
      if td then (if K1 == key then (key, false) else (K1, true))
      else if !sig then (key, false)
      else (if K2 == key then (key, false) else (K2, true))) :
    (f (f k).1).2 = false := by
  cases td
  · cases sig
    · simp [hf]
    · by_cases hK : (K2 == k) = true <;> simp [hf, hK]
  · by_cases hK : (K1 == k) = true <;> simp [hf, hK]

/-- Claim C1 (amended): only the pane-analysis detector
`_detectCompletionFromPane` deduplicates, and only against the single most
recently recorded fingerprint: calling it twice in a row on an unchanged pane
never signals a completion the second time (whatever the stored key was). -/
theorem claim_C1 (k : String) (p : List String) :
    (detectCompletionFromPane (detectCompletionFromPane k p).1 p).2 = false := by
  by_cases h1 : isEmptyContent p = true
  · simp [detectCompletionFromPane, h1]
  · by_cases h2 : ((extractRecentConversation p).claudeResponse == "") = true
    · simp [detectCompletionFromPane, h1, h2]
    · exact dedupSecondCall
        (ciContainsStr (extractRecentConversation p).claudeResponse "Telegram done")
        (workedForPat "worked for ".data
            (lowerL (extractRecentConversation p).claudeResponse.data) ||
          workedForPat "─ worked for ".data
            (lowerL (extractRecentConversation p).claudeResponse.data) ||
          (matchBulletM (extractRecentConversation p).claudeResponse.data ||
            ciContainsStr (extractRecentConversation p).claudeResponse "(no output)"))
        ((extractRecentConversation p).userQuestion ++ "::" ++
          toString (firstIdxCI (extractRecentConversation p).claudeResponse "Telegram done"))
        ((extractRecentConversation p).userQuestion ++ "::" ++
          strTakeRight (extractRecentConversation p).claudeResponse 500)
        k (fun key => detectCompletionFromPane key p)
        (fun key => by
          simp only [detectCompletionFromPane, h1, h2]
          rcases htd : ciContainsStr (extractRecentConversation p).claudeResponse
              "Telegram done" with _ | _ <;>
            simp [htd, Bool.or_assoc])

/-! ### Specification-side definitions (for refinement claims) -/

/-- Specification reading of the segmenter's response slice: starting right
after the located prompt line, take lines forward up to the next prompt line
or the end of the buffer, keeping non-empty content lines and skipping
ui-chrome and prompt-only lines. -/
def segmentSpecResponse (lines : List String) (i : Nat) : List String :=
  (((lines.drop (i + 1)).map jsTrim).takeWhile (fun t => !isPromptLineStr t)).filter
    (fun t => t != "" && !isPromptOnlyStr t && !isUiLine t)

/-- The non-chrome content lines after the located prompt line (specification
notion used by the `assistantResponse` non-emptiness guarantee). -/
def contentAfter (lines : List String) (i : Nat) : List String :=
  ((lines.drop (i + 1)).map jsTrim).filter
    (fun t => t != "" && !isPromptOnlyStr t && !isUiLine t)

/-- A concrete 16-line pane capture: a context-budget footer at the top, some
response lines, an open question, a bare prompt and trailing blank rows. -/
def c3paneA : List String :=
  ["19% context left", "alpha", "bravo", "charlie", "delta", "echo",
   "Do you want to continue?", "›", "", "", "", "", "", "", "", ""]

/-- The same pane one poll later: the only changed line is the footer. -/
def c3paneB : List String :=
  ["18% context left", "alpha", "bravo", "charlie", "delta", "echo",
   "Do you want to continue?", "›", "", "", "", "", "", "", "", ""]

/-- A running monitor whose remembered pane has its footer inside the 5-line
comparison window of `_getNewLines`. -/
def c3WitState : MonitorState :=
  ⟨"cx", true, 1, ["alpha", "beta", "gamma", "delta", "5% context left", "›"],
   [], "", "", ""⟩

/-- The next capture for that monitor: only the footer line ticked down. -/
def c3WitCap : List String :=
  ["alpha", "beta", "gamma", "delta", "4% context left", "›"]

/-! ### Supporting lemmas -/

theorem analyzeNewContent_isMonitoring (s : MonitorState) (nl c f : List String) :
    (analyzeNewContent s nl c f).1.isMonitoring = s.isMonitoring := by
  simp only [analyzeNewContent]
  split
  · simp
  · split_ifs <;> simp

theorem analyzeNewContent_timers (s : MonitorState) (nl c f : List String) :
    (analyzeNewContent s nl c f).1.timers = s.timers := by
  simp only [analyzeNewContent]
  split
  · simp
  · split_ifs <;> simp

theorem checkForChanges_isMonitoring (s : MonitorState) (cap : Option (List String)) :
    (checkForChanges s cap).1.isMonitoring = s.isMonitoring := by
  simp only [checkForChanges]
  repeat' split
  all_goals simp [analyzeNewContent_isMonitoring]

theorem checkForChanges_timers (s : MonitorState) (cap : Option (List String)) :
    (checkForChanges s cap).1.timers = s.timers := by
  simp only [checkForChanges]
  repeat' split
  all_goals simp [analyzeNewContent_timers]

theorem getNewLines_blank (old : List String) : getNewLines old [""] = [] := by
  match old with
  | [] => simp [getNewLines, jsTrim, jsTrimL, isJsWs]
  | [x] =>
    simp only [getNewLines, List.length_cons, List.length_nil, List.length_singleton]
    by_cases h : ("" : String) == x <;>
      simp [h, diffTail, jsTrim, jsTrimL, isJsWs]
  | x :: y :: t =>
    simp [getNewLines]

theorem isEmptyContent_blank : isEmptyContent [""] = true := rfl

theorem blankTailFiltered :
    ((takeLast 20 ([""] : List String)).filter (fun l => jsTrim l != "")) = [] := rfl

theorem isPromptOnly_emptyStr : isPromptOnlyStr "" = false := rfl

theorem checkForChanges_none_events (s : MonitorState) :
    (checkForChanges s none).2 = [] := by
  simp only [checkForChanges, captureContent, Option.getD_none]
  by_cases hch : (([""] : List String) != s.lastPaneContent) = true
  · simp only [hch, if_true, getNewLines_blank, List.isEmpty_nil, Bool.not_true, if_false,
      blankTailFiltered, List.getLastD_nil, isPromptOnly_emptyStr, Bool.false_and,
      isEmptyContent_blank, Bool.not_true, Bool.false_and, if_false, List.append_nil]
    simp
  · simp only [hch, if_false]
    simp only [Bool.not_eq_true] at hch
    simp [hch, isEmptyContent_blank]

theorem findLastIdx_none {p : α → Bool} :
    ∀ {l : List α}, findLastIdx p l = none → ∀ x ∈ l, p x = false := by
  intro l
  induction l with
  | nil => intro _ x hx; simp at hx
  | cons a t ih =>
    intro h x hx
    simp only [findLastIdx] at h
    rcases ht : findLastIdx p t with _ | k
    · rw [ht] at h
      rcases List.mem_cons.mp hx with hx | hx
      · by_cases hp : p a = true
        · simp [hp] at h
        · subst hx
          simpa using hp
      · exact ih ht x hx
    · rw [ht] at h
      simp at h

theorem findLastIdx_lt_length {p : α → Bool} :
    ∀ {l : List α} {i : Nat}, findLastIdx p l = some i → i < l.length := by
  intro l
  induction l with
  | nil => intro i h; simp [findLastIdx] at h
  | cons a t ih =>
    intro i h
    simp only [findLastIdx] at h
    rcases ht : findLastIdx p t with _ | k
    · rw [ht] at h
      by_cases hp : p a = true
      · simp [hp] at h
        simp only [List.length_cons]
        omega
      · simp [hp] at h
    · rw [ht] at h
      injection h with h
      have := ih ht
      simp only [List.length_cons]
      omega

theorem findLastIdx_getD {p : α → Bool} (d : α) :
    ∀ {l : List α} {i : Nat}, findLastIdx p l = some i → p (l.getD i d) = true := by
  intro l
  induction l with
  | nil => intro i h; simp [findLastIdx] at h
  | cons a t ih =>
    intro i h
    simp only [findLastIdx] at h
    rcases ht : findLastIdx p t with _ | k
    · rw [ht] at h
      by_cases hp : p a = true
      · simp [hp] at h
        subst h
        simpa using hp
      · simp [hp] at h
    · rw [ht] at h
      injection h with h
      subst h
      simpa using ih ht

theorem findLastIdx_drop_after {p : α → Bool} :
    ∀ {l : List α} {i : Nat}, findLastIdx p l = some i →
      ∀ x ∈ l.drop (i + 1), p x = false := by
  intro l
  induction l with
  | nil => intro i h; simp [findLastIdx] at h
  | cons a t ih =>
    intro i h x hx
    simp only [findLastIdx] at h
    rcases ht : findLastIdx p t with _ | k
    · rw [ht] at h
      by_cases hp : p a = true
      · simp [hp] at h
        subst h
        simp only [List.drop_succ_cons, List.drop_zero] at hx
        exact findLastIdx_none ht x hx
      · simp [hp] at h
    · rw [ht] at h
      injection h with h
      subst h
      simp only [List.drop_succ_cons] at hx
      exact ih ht x hx

/-- The fused per-line loop equals "take until the next prompt line, then
filter the content lines" (the segmenter algorithm as the spec words it). -/
theorem collectLoop_eq_takeWhileFilter :
    ∀ ls : List String, collectLoop ls =
      ((ls.map jsTrim).takeWhile (fun t => !isPromptLineStr t)).filter
        (fun t => t != "" && !isPromptOnlyStr t && !isUiLine t) := by
  intro ls
  induction ls with
  | nil => rfl
  | cons l rest ih =>
    simp only [collectLoop, List.map_cons, List.takeWhile_cons]
    by_cases h0 : jsTrim l = ""
    · rw [h0]
      rw [if_pos (by simp), show isPromptLineStr "" = false from rfl]
      simpa using ih
    · rw [if_neg (by simpa using h0)]
      by_cases h1 : isPromptLineStr (jsTrim l) = true
      · rw [if_pos h1, h1]
        simp
      · simp only [Bool.not_eq_true] at h1
        rw [if_neg (by simp [h1]), h1]
        simp only [Bool.not_false, if_true, List.filter_cons]
        by_cases h2 : isPromptOnlyStr (jsTrim l) = true
        · rw [if_pos h2, if_neg (by simp [h2])]
          exact ih
        · simp only [Bool.not_eq_true] at h2
          rw [if_neg (by simp [h2])]
          by_cases h3 : isUiLine (jsTrim l) = true
          · rw [if_pos h3, if_neg (by simp [h3])]
            exact ih
          · simp only [Bool.not_eq_true] at h3
            rw [if_neg (by simp [h3]), if_pos (by simp [h0, h2, h3])]
            rw [ih]

/-- When no line of the slice is a prompt line, the loop is a plain filter. -/
theorem collectLoop_eq_filter (ls : List String)
    (hnp : ∀ x ∈ ls, isPromptLineStr (jsTrim x) = false) :
    collectLoop ls = (ls.map jsTrim).filter
      (fun t => t != "" && !isPromptOnlyStr t && !isUiLine t) := by
  rw [collectLoop_eq_takeWhileFilter]
  congr 1
  apply List.takeWhile_eq_self_iff.mpr
  intro t ht
  obtain ⟨x, hx, rfl⟩ := List.mem_map.mp ht
  simp [hnp x hx]

theorem dropWhile_length_eq_self {p : α → Bool} :
    ∀ {l : List α}, (l.dropWhile p).length = l.length → l.dropWhile p = l := by
  intro l
  induction l with
  | nil => simp
  | cons a t ih =>
    intro h
    by_cases hp : p a = true
    · rw [List.dropWhile_cons, if_pos hp] at h ⊢
      have hle : (t.dropWhile p).length ≤ t.length := (List.dropWhile_sublist p).length_le
      simp only [List.length_cons] at h
      omega
    · rw [List.dropWhile_cons, if_neg (by simpa using hp)]

theorem dropWhile_eq_self_head {p : α → Bool} {a : α} {t : List α}
    (h : (a :: t).dropWhile p = a :: t) : p a = false := by
  by_cases hp : p a = true
  · rw [List.dropWhile_cons, if_pos hp] at h
    have hle : (t.dropWhile p).length ≤ t.length := (List.dropWhile_sublist p).length_le
    have hlen := congrArg List.length h
    simp only [List.length_cons] at hlen
    omega
  · simpa using hp

theorem jsTrimL_eq_self_dropWhile {l : List Char} (h : jsTrimL l = l) :
    l.dropWhile isJsWs = l := by
  apply dropWhile_length_eq_self
  have h1 : (jsTrimL l).length ≤ (l.dropWhile isJsWs).length := by
    simp only [jsTrimL, List.length_reverse]
    have hA : ((l.dropWhile isJsWs).reverse.dropWhile isJsWs).length ≤
        (l.dropWhile isJsWs).reverse.length := (List.dropWhile_sublist isJsWs).length_le
    simpa using hA
  have h2 : (l.dropWhile isJsWs).length ≤ l.length := (List.dropWhile_sublist isJsWs).length_le
  have h3 := congrArg List.length h
  omega

theorem jsTrimL_eq_self_back {l : List Char} (h : jsTrimL l = l) :
    l.reverse.dropWhile isJsWs = l.reverse := by
  have hd := jsTrimL_eq_self_dropWhile h
  have h2 : ((l.reverse).dropWhile isJsWs).reverse = l := by
    have := h
    rw [jsTrimL, hd] at this
    exact this
  calc l.reverse.dropWhile isJsWs
      = ((l.reverse.dropWhile isJsWs).reverse).reverse := by simp
    _ = l.reverse := by rw [h2]

theorem jsTrim_fix_head {s : String} (hf : jsTrim s = s) :
    ∀ c, s.data.head? = some c → isJsWs c = false := by
  intro c hc
  have hL : jsTrimL s.data = s.data := by
    have := congrArg String.data hf
    simpa [jsTrim] using this
  have hd := jsTrimL_eq_self_dropWhile hL
  cases hs : s.data with
  | nil => rw [hs] at hc; simp at hc
  | cons a t =>
    rw [hs] at hc hd
    injection hc with hc
    subst hc
    exact dropWhile_eq_self_head hd

theorem jsTrim_fix_last {s : String} (hf : jsTrim s = s) :
    ∀ c, s.data.getLast? = some c → isJsWs c = false := by
  intro c hc
  have hL : jsTrimL s.data = s.data := by
    have := congrArg String.data hf
    simpa [jsTrim] using this
  have hb := jsTrimL_eq_self_back hL
  rw [← List.head?_reverse] at hc
  cases hs : s.data.reverse with
  | nil => rw [hs] at hc; simp at hc
  | cons a t =>
    rw [hs] at hc hb
    injection hc with hc
    subst hc
    exact dropWhile_eq_self_head hb

theorem jsTrimL_fix_of (l : List Char)
    (hh : ∀ c, l.head? = some c → isJsWs c = false)
    (hl : ∀ c, l.getLast? = some c → isJsWs c = false) : jsTrimL l = l := by
  have h1 : l.dropWhile isJsWs = l := by
    cases l with
    | nil => rfl
    | cons c t =>
      rw [List.dropWhile_cons, if_neg (by simp [hh c rfl])]
  have h2 : l.reverse.dropWhile isJsWs = l.reverse := by
    cases hlr : l.reverse with
    | nil => rfl
    | cons c t =>
      have hc : l.getLast? = some c := by
        rw [← List.head?_reverse, hlr]
        rfl
      rw [List.dropWhile_cons, if_neg (by simp [hl c hc])]
  simp only [jsTrimL, h1, h2, List.reverse_reverse]

theorem str_data_ne_nil {s : String} (h : s ≠ "") : s.data ≠ [] := by
  intro hd
  apply h
  cases s with
  | mk d =>
    simp only at hd
    subst hd
    rfl

theorem strOfLines_data_cons (a b : String) (t : List String) :
    (strOfLines (a :: b :: t)).data = a.data ++ '\n' :: (strOfLines (b :: t)).data := by
  show (a ++ "\n" ++ strOfLines (b :: t)).data = _
  simp [String.data_append]

theorem strOfLines_ne_nil :
    ∀ (parts : List String), parts ≠ [] → (∀ x ∈ parts, x ≠ "") →
      (strOfLines parts).data ≠ [] := by
  intro parts
  match parts with
  | [] => intro h _; exact absurd rfl h
  | [a] =>
    intro _ hne
    exact str_data_ne_nil (hne a (by simp))
  | a :: b :: t =>
    intro _ hne
    rw [strOfLines_data_cons]
    have := str_data_ne_nil (hne a (by simp))
    intro hcontra
    rcases List.append_eq_nil.mp hcontra with ⟨h1, _⟩
    exact this h1

theorem strOfLines_head (a : String) (t : List String) (ha : a.data ≠ []) :
    (strOfLines (a :: t)).data.head? = a.data.head? := by
  cases t with
  | nil => rfl
  | cons b r =>
    rw [strOfLines_data_cons]
    exact List.head?_append_of_ne_nil _ ha

theorem strOfLines_getLast :
    ∀ (parts : List String), parts ≠ [] → (∀ x ∈ parts, x ≠ "") →
      ∃ y ∈ parts, (strOfLines parts).data.getLast? = y.data.getLast? := by
  intro parts
  match parts with
  | [] => intro h _; exact absurd rfl h
  | [a] => intro _ _; exact ⟨a, by simp, rfl⟩
  | a :: b :: t =>
    intro _ hne
    obtain ⟨y, hy, hgl⟩ := strOfLines_getLast (b :: t) (by simp)
      (fun x hx => hne x (List.mem_cons_of_mem a hx))
    refine ⟨y, List.mem_cons_of_mem a hy, ?_⟩
    rw [strOfLines_data_cons]
    have hne2 : '\n' :: (strOfLines (b :: t)).data ≠ [] := by simp
    rw [List.getLast?_append_of_ne_nil _ hne2]
    have hne3 : (strOfLines (b :: t)).data ≠ [] :=
      strOfLines_ne_nil (b :: t) (by simp) (fun x hx => hne x (List.mem_cons_of_mem a hx))
    calc ('\n' :: (strOfLines (b :: t)).data).getLast?
        = (['\n'] ++ (strOfLines (b :: t)).data).getLast? := by rfl
      _ = (strOfLines (b :: t)).data.getLast? := List.getLast?_append_of_ne_nil _ hne3
      _ = y.data.getLast? := hgl

/-- Joining non-empty already-trimmed lines with newlines yields a string that
`trim` leaves unchanged. -/
theorem jsTrim_strOfLines_fixed (parts : List String)
    (hne : ∀ x ∈ parts, x ≠ "") (hfix : ∀ x ∈ parts, jsTrim x = x) :
    jsTrim (strOfLines parts) = strOfLines parts := by
  cases parts with
  | nil => rfl
  | cons a t =>
    have hdata : jsTrimL (strOfLines (a :: t)).data = (strOfLines (a :: t)).data := by
      apply jsTrimL_fix_of
      · intro c hc
        rw [strOfLines_head a t (str_data_ne_nil (hne a (by simp)))] at hc
        exact jsTrim_fix_head (hfix a (by simp)) c hc
      · intro c hc
        obtain ⟨y, hy, hgl⟩ := strOfLines_getLast (a :: t) (by simp) hne
        rw [hgl] at hc
        exact jsTrim_fix_last (hfix y hy) c hc
    show String.mk (jsTrimL (strOfLines (a :: t)).data) = _
    rw [hdata]

theorem strOfLines_ne_empty (parts : List String) (hp : parts ≠ [])
    (hne : ∀ x ∈ parts, x ≠ "") : strOfLines parts ≠ "" := by
  intro h
  exact strOfLines_ne_nil parts hp hne (by rw [h])

theorem dropWhile_head_false {p : α → Bool} :
    ∀ {l : List α} {a : α} {t : List α}, l.dropWhile p = a :: t → p a = false := by
  intro l
  induction l with
  | nil => intro a t h; simp at h
  | cons c r ih =>
    intro a t h
    by_cases hp : p c = true
    · rw [List.dropWhile_cons, if_pos hp] at h
      exact ih h
    · rw [List.dropWhile_cons, if_neg (by simpa using hp)] at h
      injection h with h1 _
      subst h1
      simpa using hp

theorem cons_getLast?_of_ne_nil (a : α) {t : List α} (h : t ≠ []) :
    (a :: t).getLast? = t.getLast? := by
  calc (a :: t).getLast? = ([a] ++ t).getLast? := rfl
    _ = t.getLast? := List.getLast?_append_of_ne_nil _ h

theorem dropWhile_getLast? {p : α → Bool} :
    ∀ {l : List α}, l.dropWhile p ≠ [] → (l.dropWhile p).getLast? = l.getLast? := by
  intro l
  induction l with
  | nil => simp
  | cons a t ih =>
    intro h
    by_cases hp : p a = true
    · rw [List.dropWhile_cons, if_pos hp] at h ⊢
      rw [ih h]
      have ht : t ≠ [] := by
        rintro rfl
        simp at h
      exact (cons_getLast?_of_ne_nil a ht).symm
    · rw [List.dropWhile_cons, if_neg (by simpa using hp)]

theorem jsTrimL_idem (l : List Char) : jsTrimL (jsTrimL l) = jsTrimL l := by
  rcases hv : (l.dropWhile isJsWs).reverse.dropWhile isJsWs with _ | ⟨c, t⟩
  · have hm : jsTrimL l = ((l.dropWhile isJsWs).reverse.dropWhile isJsWs).reverse := rfl
    rw [hm, hv]
    rfl
  · have hvne : (l.dropWhile isJsWs).reverse.dropWhile isJsWs ≠ [] := by simp [hv]
    apply jsTrimL_fix_of
    · intro d hd
      rw [show jsTrimL l = ((l.dropWhile isJsWs).reverse.dropWhile isJsWs).reverse from rfl,
        List.head?_reverse, dropWhile_getLast? hvne, List.getLast?_reverse] at hd
      rcases hu : l.dropWhile isJsWs with _ | ⟨u0, ur⟩
      · rw [hu] at hd
        simp at hd
      · rw [hu] at hd
        injection hd with hd
        subst hd
        exact dropWhile_head_false hu
    · intro d hd
      rw [show jsTrimL l = ((l.dropWhile isJsWs).reverse.dropWhile isJsWs).reverse from rfl,
        List.getLast?_reverse, hv] at hd
      injection hd with hd
      subst hd
      exact dropWhile_head_false hv

/-- `trim` is idempotent. -/
theorem jsTrim_idem (s : String) : jsTrim (jsTrim s) = jsTrim s := by
  show String.mk (jsTrimL (jsTrimL s.data)) = jsTrim s
  rw [jsTrimL_idem]
  rfl


theorem jsTrimL_eq_nil_iff {l : List Char} :
    jsTrimL l = [] ↔ ∀ c ∈ l, isJsWs c = true := by
  constructor
  · intro h c hc
    have h1 : (l.dropWhile isJsWs).reverse.dropWhile isJsWs = [] := by
      have := congrArg List.reverse h
      simpa [jsTrimL] using this
    have h2 : ∀ x ∈ (l.dropWhile isJsWs).reverse, isJsWs x = true :=
      List.dropWhile_eq_nil_iff.mp h1
    have h3 : ∀ x ∈ l.dropWhile isJsWs, isJsWs x = true := by
      intro x hx
      exact h2 x (by simpa using hx)
    have h4 : l.dropWhile isJsWs = [] := by
      rcases hdw : l.dropWhile isJsWs with _ | ⟨x, xs⟩
      · rfl
      · have hx1 := dropWhile_head_false hdw
        have hx2 := h3 x (by rw [hdw]; simp)
        simp_all
    exact List.dropWhile_eq_nil_iff.mp h4 c hc
  · intro h
    have h4 : l.dropWhile isJsWs = [] := List.dropWhile_eq_nil_iff.mpr h
    simp [jsTrimL, h4]

theorem stripAnsiGo_noEsc :
    ∀ (fuel : Nat) (l : List Char), '\x1b' ∉ l → stripAnsiGo fuel l = l := by
  intro fuel
  induction fuel with
  | zero => intro l _; cases l <;> rfl
  | succ n ih =>
    intro l hl
    match l with
    | [] => rfl
    | c :: rest =>
      have hc : ¬(c = '\x1b') := by
        intro h
        exact hl (by rw [h]; exact List.mem_cons_self _ _)
      simp only [stripAnsiGo, if_neg hc]
      rw [ih rest (fun hm => hl (List.mem_cons_of_mem c hm))]

theorem stripAnsiL_noEsc {l : List Char} (h : '\x1b' ∉ l) : stripAnsiL l = l :=
  stripAnsiGo_noEsc l.length l h

theorem stripPromptPfxL_cases (l : List Char) :
    stripPromptPfxL l = l ∨
    ∃ c rest, afterBorder l = '›' :: (c :: rest) ∧ isJsWs c = true ∧
      stripPromptPfxL l = dropWs (c :: rest) := by
  unfold stripPromptPfxL
  split
  · rename_i r heq
    rcases r with _ | ⟨c, rest⟩
    · exact Or.inl rfl
    · dsimp only
      by_cases hwc : isJsWs c = true
      · rw [if_pos hwc]
        exact Or.inr ⟨c, rest, heq, hwc, rfl⟩
      · rw [if_neg hwc]
        exact Or.inl rfl
  · exact Or.inl rfl

theorem afterBorder_charset {l r : List Char}
    (hab : afterBorder l = '›' :: r) (hr : ∀ c ∈ r, isJsWs c = true) :
    ∀ c ∈ l, isJsWs c = true ∨ c = '│' ∨ c = '|' ∨ c = '›' := by
  intro c hc
  rcases hd : dropWs l with _ | ⟨c0, r0⟩
  · rw [afterBorder, hd] at hab
    simp at hab
  · rw [afterBorder, hd] at hab
    dsimp only at hab
    have hdecomp : l = l.takeWhile isJsWs ++ (c0 :: r0) := by
      conv_lhs => rw [← List.takeWhile_append_dropWhile isJsWs l]
      rw [show l.dropWhile isJsWs = c0 :: r0 from hd]
    by_cases hb : (c0 == '│' || c0 == '|') = true
    · rw [if_pos hb] at hab
      have hdec2 : r0 = r0.takeWhile isJsWs ++ ('›' :: r) := by
        conv_lhs => rw [← List.takeWhile_append_dropWhile isJsWs r0]
        rw [show r0.dropWhile isJsWs = '›' :: r from hab]
      rw [hdecomp, hdec2] at hc
      simp only [List.mem_append, List.mem_cons] at hc
      rcases hc with h1 | h2 | h3
      · exact Or.inl (List.mem_takeWhile_imp h1)
      · subst h2
        rcases Bool.or_eq_true_iff.mp hb with hb1 | hb1
        · exact Or.inr (Or.inl (by simpa using hb1))
        · exact Or.inr (Or.inr (Or.inl (by simpa using hb1)))
      · rcases h3 with h4 | h5
        · exact Or.inl (List.mem_takeWhile_imp h4)
        · rcases h5 with h6 | h7
          · exact Or.inr (Or.inr (Or.inr h6))
          · exact Or.inl (hr c h7)
    · rw [if_neg hb] at hab
      injection hab with hab1 hab2
      subst hab1
      subst hab2
      rw [hdecomp] at hc
      rcases List.mem_append.mp hc with h1 | h2
      · exact Or.inl (List.mem_takeWhile_imp h1)
      · rcases List.mem_cons.mp h2 with h3 | h4
        · exact Or.inr (Or.inr (Or.inr h3))
        · exact Or.inl (hr c h4)

/-- On a trimmed prompt line, stripping the prompt-marker prefix and trimming
never yields the empty string (the regex demands non-whitespace text after the
marker). -/
theorem stripPrompt_trim_ne {t : String} (hfix : jsTrim t = t)
    (hp : isPromptLineStr t = true) : jsTrim (stripPromptPfx t) ≠ "" := by
  have hteq : String.mk t.data = t := by cases t; rfl
  have htne : t ≠ "" := by
    intro h
    rw [h] at hp
    exact absurd hp (by decide)
  intro hcontra
  rcases stripPromptPfxL_cases t.data with hfb | ⟨c, rest, hab, hwc, hres⟩
  · have hsp : stripPromptPfx t = t := by
      show String.mk (stripPromptPfxL t.data) = t
      rw [hfb]
    rw [hsp, hfix] at hcontra
    exact htne hcontra
  · have hnil : jsTrimL (dropWs (c :: rest)) = [] := by
      have h2 : jsTrim (stripPromptPfx t) = String.mk (jsTrimL (dropWs (c :: rest))) := by
        show String.mk (jsTrimL (stripPromptPfx t).data) = _
        have h3 : (stripPromptPfx t).data = dropWs (c :: rest) := hres
        rw [h3]
      rw [h2] at hcontra
      have h4 := congrArg String.data hcontra
      simpa using h4
    have hallws : ∀ x ∈ dropWs (c :: rest), isJsWs x = true := jsTrimL_eq_nil_iff.mp hnil
    have hdw : dropWs (c :: rest) = [] := by
      rcases hdw2 : dropWs (c :: rest) with _ | ⟨x, xs⟩
      · rfl
      · have hx1 := dropWhile_head_false hdw2
        have hx2 := hallws x (by rw [hdw2]; simp)
        simp_all
    have hrws : ∀ x ∈ (c :: rest), isJsWs x = true := List.dropWhile_eq_nil_iff.mp hdw
    have hcharset := afterBorder_charset hab hrws
    have hesc : ('\x1b' : Char) ∉ t.data := by
      intro hm
      rcases hcharset _ hm with h | h | h | h
      · exact absurd h (by decide)
      · exact absurd h (by decide)
      · exact absurd h (by decide)
      · exact absurd h (by decide)
    have hstrip : stripAnsiL t.data = t.data := stripAnsiL_noEsc hesc
    unfold isPromptLineStr at hp
    rw [hstrip] at hp
    unfold promptCore at hp
    rw [hab] at hp
    simp only at hp
    rw [hdw] at hp
    simp at hp

/-- Claim C7: for a monitor that is not currently running, `start()` throws a
session-not-found error exactly when the named tmux session is absent from the
queried session list; in that case no instance field changes (so monitoring
has not begun and no polling timer exists), and when the session exists the
monitor transitions to the running state. -/
theorem claim_C7 (s : MonitorState) (sessions : Option (List String))
    (h : s.isMonitoring = false) :
    ((startMonitor s sessions).error.isSome ↔ sessionExists s.sessionName sessions = false) ∧
    (sessionExists s.sessionName sessions = false →
      (startMonitor s sessions).state = s ∧
      (startMonitor s sessions).state.isMonitoring = false ∧
      (startMonitor s sessions).state.timers = s.timers) ∧
    (sessionExists s.sessionName sessions = true →
      (startMonitor s sessions).state.isMonitoring = true) ∧
    (startMonitor s sessions).verifiedSession = true := by
  unfold startMonitor
  rcases hse : sessionExists s.sessionName sessions <;> simp [h, hse]

/-- Witness for C7 at a concrete stopped monitor and session list. -/
theorem claim_C7_witness :
    (initialMonitorState "codex-real").isMonitoring = false ∧
    (((startMonitor (initialMonitorState "codex-real") (some ["work"])).error.isSome ↔
        sessionExists (initialMonitorState "codex-real").sessionName (some ["work"]) = false) ∧
      (sessionExists (initialMonitorState "codex-real").sessionName (some ["work"]) = false →
        (startMonitor (initialMonitorState "codex-real") (some ["work"])).state =
            initialMonitorState "codex-real" ∧
        (startMonitor (initialMonitorState "codex-real") (some ["work"])).state.isMonitoring =
            false ∧
        (startMonitor (initialMonitorState "codex-real") (some ["work"])).state.timers =
            (initialMonitorState "codex-real").timers) ∧
      (sessionExists (initialMonitorState "codex-real").sessionName (some ["work"]) = true →
        (startMonitor (initialMonitorState "codex-real") (some ["work"])).state.isMonitoring =
            true) ∧
      (startMonitor (initialMonitorState "codex-real") (some ["work"])).verifiedSession = true) :=
  ⟨rfl, claim_C7 (initialMonitorState "codex-real") (some ["work"]) rfl⟩

/-- Claim C8: a failed pane capture never terminates the monitor loop: the
capture routine signals failure with the empty content instead of throwing,
the affected cycle emits no event, and the monitoring flag and polling timer
are untouched so the next tick proceeds normally. -/
theorem claim_C8 (s : MonitorState) :
    captureContent none = [""] ∧
    (checkForChanges s none).2 = [] ∧
    (checkForChanges s none).1.isMonitoring = s.isMonitoring ∧
    (checkForChanges s none).1.timers = s.timers :=
  ⟨rfl, checkForChanges_none_events s, checkForChanges_isMonitoring s none,
   checkForChanges_timers s none⟩

/-- Claim C10: `start()` on an already-running monitor is a pure no-op: the
state (buffer, dedup keys, timer count) is returned unchanged, no error is
raised and the session list is not queried; moreover under the timer
invariant — preserved by `start`, `stop` and every poll cycle — a monitor
never holds more than one live polling timer. -/
theorem claim_C10 (s : MonitorState) (sessions : Option (List String))
    (h : s.isMonitoring = true) :
    startMonitor s sessions = ⟨s, none, false⟩ ∧
    (∀ s' : MonitorState, monInv s' → s'.timers ≤ 1) ∧
    (∀ (s' : MonitorState) (sess : Option (List String)),
      monInv s' → monInv (startMonitor s' sess).state) ∧
    (∀ s' : MonitorState, monInv s' → monInv (stopMonitor s')) ∧
    (∀ (s' : MonitorState) (cap : Option (List String)),
      monInv s' → monInv (checkForChanges s' cap).1) := by
  refine ⟨by simp [startMonitor, h], ?_, ?_, ?_, ?_⟩
  · intro s' hinv
    rcases hm : s'.isMonitoring
    · rw [hinv.2 hm]
      omega
    · rw [hinv.1 hm]
  · intro s' sess hinv
    unfold startMonitor
    rcases hm : s'.isMonitoring <;> rcases hse : sessionExists s'.sessionName sess <;>
      simp_all [monInv]
  · intro s' hinv
    unfold stopMonitor
    rcases hm : s'.isMonitoring <;> simp_all [monInv]
  · intro s' cap hinv
    constructor <;> intro hx
    · rw [checkForChanges_timers]
      exact hinv.1 ((checkForChanges_isMonitoring s' cap) ▸ hx)
    · rw [checkForChanges_timers]
      exact hinv.2 ((checkForChanges_isMonitoring s' cap) ▸ hx)

/-- A concrete monitor state that is currently running. -/
def runningState : MonitorState :=
  ⟨"codex-real", true, 1, [""], [], "", "", ""⟩

/-- Witness for C10 at a concrete running monitor. -/
theorem claim_C10_witness :
    runningState.isMonitoring = true ∧
    startMonitor runningState (some ["codex-real"]) = ⟨runningState, none, false⟩ :=
  ⟨rfl, (claim_C10 runningState (some ["codex-real"]) rfl).1⟩

/-- Claim C9: when any of the three keystroke-send steps of `injectCommand`
(clear input, send command text, send Enter) fails, the call resolves with
`success = false` carrying the first failing step's error message, and the
confirmation autopilot is never entered. -/
theorem claim_C9 (clearErr sendErr enterErr : Option String)
    (cap : Nat → Option String) (sendOk : Nat → Bool)
    (h : clearErr.isSome ∨ sendErr.isSome ∨ enterErr.isSome) :
    (injectCommand clearErr sendErr enterErr cap sendOk).success = false ∧
    (injectCommand clearErr sendErr enterErr cap sendOk).errMsg =
      firstErr clearErr sendErr enterErr ∧
    (injectCommand clearErr sendErr enterErr cap sendOk).confirmations = none := by
  rcases clearErr with _ | e
  · rcases sendErr with _ | e
    · rcases enterErr with _ | e
      · simp at h
      · simp [injectCommand, firstErr]
    · simp [injectCommand, firstErr]
  · simp [injectCommand, firstErr]

/-- Witness for C9: the clear-input step fails. -/
theorem claim_C9_witness :
    ((some "send failed" : Option String).isSome ∨ (none : Option String).isSome ∨
      (none : Option String).isSome) ∧
    ((injectCommand (some "send failed") none none (fun _ => none) (fun _ => true)).success =
        false ∧
      (injectCommand (some "send failed") none none (fun _ => none) (fun _ => true)).errMsg =
        firstErr (some "send failed") none none ∧
      (injectCommand (some "send failed") none none (fun _ => none)
          (fun _ => true)).confirmations = none) :=
  ⟨Or.inl rfl,
   claim_C9 (some "send failed") none none (fun _ => none) (fun _ => true) (Or.inl rfl)⟩

/-! ### Claim theorems: conversation extraction (C2, C6) -/

theorem segmentSpec_elems (lines : List String) (i : Nat) :
    ∀ x ∈ segmentSpecResponse lines i, x ≠ "" ∧ jsTrim x = x := by
  intro x hx
  unfold segmentSpecResponse at hx
  have hmem := List.mem_filter.mp hx
  have hpred := hmem.2
  have hne : x ≠ "" := by
    intro h
    rw [h] at hpred
    simp at hpred
  have htw : x ∈ (lines.drop (i + 1)).map jsTrim :=
    (List.takeWhile_sublist _).subset hmem.1
  obtain ⟨y, _, rfl⟩ := List.mem_map.mp htw
  exact ⟨hne, jsTrim_idem y⟩

/-- Claim C2 (counterexample): the claim fails as stated on buffers where the
prompt is followed by no content line at all: the most recent prompt line of
`["› hi", "›"]` is index 0, the in-order concatenation of the content lines
after it is the empty string, yet `extractConversation` returns the sentinel
`"No response"` instead of that concatenation. -/
theorem claim_C2_counterexample :
    findLastIdx (fun l => isPromptLineStr (jsTrim l)) ["› hi", "›"] = some 0 ∧
    strOfLines (segmentSpecResponse ["› hi", "›"] 0) = "" ∧
    (extractConversation ["› hi", "›"]).claudeResponse = "No response" ∧
    ("No response" : String) ≠ "" := by
  decide

/-- Claim C2 (amended): for every buffer whose lookback window contains a
prompt line, and in which at least one non-chrome content line survives
between the located prompt and the next prompt line (or buffer end),
`extractConversation` returns exactly the claim's values: `userQuestion` is
the stripped text of the most recent prompt line, and `claudeResponse` is the
newline-joined in-order concatenation of those content lines (and in
particular non-empty); when no such content line exists, the sentinel is
returned instead (see the counterexample). -/
theorem claim_C2 (lines : List String) (i : Nat)
    (hp : findLastIdx (fun l => isPromptLineStr (jsTrim l)) lines = some i)
    (hc : segmentSpecResponse lines i ≠ []) :
    (extractConversation lines).userQuestion =
      jsTrim (stripPromptPfx (jsTrim (getLine lines i))) ∧
    (extractConversation lines).claudeResponse =
      strOfLines (segmentSpecResponse lines i) ∧
    (extractConversation lines).claudeResponse ≠ "" := by
  have hpl : isPromptLineStr (jsTrim (getLine lines i)) = true :=
    findLastIdx_getD "" hp
  have huq : jsTrim (stripPromptPfx (jsTrim (getLine lines i))) ≠ "" :=
    stripPrompt_trim_ne (jsTrim_idem _) hpl
  have helems := segmentSpec_elems lines i
  have hcr_fix : jsTrim (strOfLines (segmentSpecResponse lines i)) =
      strOfLines (segmentSpecResponse lines i) :=
    jsTrim_strOfLines_fixed _ (fun x hx => (helems x hx).1) (fun x hx => (helems x hx).2)
  have hcr_ne : strOfLines (segmentSpecResponse lines i) ≠ "" :=
    strOfLines_ne_empty _ hc (fun x hx => (helems x hx).1)
  have hcoll : collectLoop (lines.drop (i + 1)) = segmentSpecResponse lines i :=
    collectLoop_eq_takeWhileFilter _
  unfold extractConversation
  rw [hp]
  simp only [hcoll, hcr_fix]
  simp [huq, hcr_ne]

/-- Witness for (amended) C2: the spec's own example shape. -/
theorem claim_C2_witness :
    findLastIdx (fun l => isPromptLineStr (jsTrim l))
      ["› fix the bug", "I fixed it", "All good", "›"] = some 0 ∧
    segmentSpecResponse ["› fix the bug", "I fixed it", "All good", "›"] 0 ≠ [] ∧
    ((extractConversation ["› fix the bug", "I fixed it", "All good", "›"]).userQuestion =
        jsTrim (stripPromptPfx (jsTrim
          (getLine ["› fix the bug", "I fixed it", "All good", "›"] 0))) ∧
      (extractConversation ["› fix the bug", "I fixed it", "All good", "›"]).claudeResponse =
        strOfLines (segmentSpecResponse ["› fix the bug", "I fixed it", "All good", "›"] 0) ∧
      (extractConversation ["› fix the bug", "I fixed it", "All good", "›"]).claudeResponse ≠
        "") ∧
    (extractConversation ["› fix the bug", "I fixed it", "All good", "›"]).userQuestion =
      "fix the bug" :=
  ⟨by decide, by decide,
   claim_C2 ["› fix the bug", "I fixed it", "All good", "›"] 0 (by decide) (by decide),
   by decide⟩

theorem contentAfter_elems (lines : List String) (i : Nat) :
    ∀ x ∈ contentAfter lines i, x ≠ "" ∧ jsTrim x = x := by
  intro x hx
  unfold contentAfter at hx
  have hmem := List.mem_filter.mp hx
  have hpred := hmem.2
  have hne : x ≠ "" := by
    intro h
    rw [h] at hpred
    simp at hpred
  obtain ⟨y, _, rfl⟩ := List.mem_map.mp hmem.1
  exact ⟨hne, jsTrim_idem y⟩

theorem collectLoop_after_prompt (lines : List String) (i : Nat)
    (hp : findLastIdx (fun l => isPromptLineStr (jsTrim l)) lines = some i) :
    collectLoop (lines.drop (i + 1)) = contentAfter lines i := by
  apply collectLoop_eq_filter
  intro x hx
  have := findLastIdx_drop_after hp x hx
  simpa using this

theorem recentFallback_empty (L : List String) (j : Nat)
    (hc : contentAfter L j = []) :
    ((L.drop (max (j + 1) (L.length - 40))).map jsTrim).filter
      (fun t => t != "" && !isUiLine t && !isPromptOnlyStr t) = [] := by
  apply List.filter_eq_nil_iff.mpr
  intro a ha
  obtain ⟨y, hy, rfl⟩ := List.mem_map.mp ha
  have hy2 : y ∈ L.drop (j + 1) := by
    have hsplit : L.drop (max (j + 1) (L.length - 40)) =
        (L.drop (j + 1)).drop (max (j + 1) (L.length - 40) - (j + 1)) := by
      rw [List.drop_drop]
      congr 1
      omega
    rw [hsplit] at hy
    exact List.mem_of_mem_drop hy
  have hnot := List.filter_eq_nil_iff.mp hc (jsTrim y) (List.mem_map_of_mem _ hy2)
  intro hcontra
  apply hnot
  simp only [Bool.and_eq_true] at hcontra ⊢
  tauto

/-- Claim C6: conversation extraction never returns an empty
`assistantResponse` when a non-chrome content line exists after the located
prompt — in that case the response is exactly the joined content lines — and
the sentinel values (`"No response"` for `extractConversation`,
`"Task completed"` for `_extractRecentConversation`) are produced only on the
branch where no such content exists at all. -/
theorem claim_C6 (lines full : List String) (i j : Nat)
    (hp1 : findLastIdx (fun l => isPromptLineStr (jsTrim l)) lines = some i)
    (hp2 : findLastIdx (fun l => isPromptLineStr (jsTrim l)) (takeLast 200 full) = some j) :
    (contentAfter lines i ≠ [] →
      (extractConversation lines).claudeResponse = strOfLines (contentAfter lines i) ∧
      (extractConversation lines).claudeResponse ≠ "") ∧
    (contentAfter lines i = [] →
      (extractConversation lines).claudeResponse = "No response") ∧
    (contentAfter (takeLast 200 full) j ≠ [] →
      (extractRecentConversation full).claudeResponse =
        strOfLines (contentAfter (takeLast 200 full) j) ∧
      (extractRecentConversation full).claudeResponse ≠ "") ∧
    (contentAfter (takeLast 200 full) j = [] →
      (extractRecentConversation full).claudeResponse = "Task completed") := by
  refine ⟨?_, ?_, ?_, ?_⟩
  · intro hne
    have helems := contentAfter_elems lines i
    have hfix : jsTrim (strOfLines (contentAfter lines i)) =
        strOfLines (contentAfter lines i) :=
      jsTrim_strOfLines_fixed _ (fun x hx => (helems x hx).1) (fun x hx => (helems x hx).2)
    have hcrne : strOfLines (contentAfter lines i) ≠ "" :=
      strOfLines_ne_empty _ hne (fun x hx => (helems x hx).1)
    unfold extractConversation
    rw [hp1]
    simp only [collectLoop_after_prompt lines i hp1, hfix]
    simp [hcrne]
  · intro hempty
    unfold extractConversation
    rw [hp1]
    simp only [collectLoop_after_prompt lines i hp1, hempty]
    simp [strOfLines, jsTrim, jsTrimL]
  · intro hne
    have helems := contentAfter_elems (takeLast 200 full) j
    have hfix : jsTrim (strOfLines (contentAfter (takeLast 200 full) j)) =
        strOfLines (contentAfter (takeLast 200 full) j) :=
      jsTrim_strOfLines_fixed _ (fun x hx => (helems x hx).1) (fun x hx => (helems x hx).2)
    have hcrne : strOfLines (contentAfter (takeLast 200 full) j) ≠ "" :=
      strOfLines_ne_empty _ hne (fun x hx => (helems x hx).1)
    unfold extractRecentConversation
    simp only [hp2, collectLoop_after_prompt (takeLast 200 full) j hp2, hfix]
    simp [hcrne]
  · intro hempty
    unfold extractRecentConversation
    simp only [hp2, collectLoop_after_prompt (takeLast 200 full) j hp2, hempty,
      recentFallback_empty (takeLast 200 full) j hempty]
    simp [strOfLines, jsTrim, jsTrimL]

/-- Witness for C6 at a concrete two-line buffer. -/
theorem claim_C6_witness :
    findLastIdx (fun l => isPromptLineStr (jsTrim l)) ["› ask", "reply"] = some 0 ∧
    ((contentAfter ["› ask", "reply"] 0 ≠ [] →
        (extractConversation ["› ask", "reply"]).claudeResponse =
          strOfLines (contentAfter ["› ask", "reply"] 0) ∧
        (extractConversation ["› ask", "reply"]).claudeResponse ≠ "") ∧
      (contentAfter ["› ask", "reply"] 0 = [] →
        (extractConversation ["› ask", "reply"]).claudeResponse = "No response") ∧
      (contentAfter (takeLast 200 ["› ask", "reply"]) 0 ≠ [] →
        (extractRecentConversation ["› ask", "reply"]).claudeResponse =
          strOfLines (contentAfter (takeLast 200 ["› ask", "reply"]) 0) ∧
        (extractRecentConversation ["› ask", "reply"]).claudeResponse ≠ "") ∧
      (contentAfter (takeLast 200 ["› ask", "reply"]) 0 = [] →
        (extractRecentConversation ["› ask", "reply"]).claudeResponse = "Task completed")) :=
  ⟨by decide,
   claim_C6 ["› ask", "reply"] ["› ask", "reply"] 0 0 (by decide) (by decide)⟩

/-! ### Claim theorems: footer-only redraws (C3) -/

theorem leadsWith_head_mem {cs : List Char} (p : Char) (ps : List Char)
    (h : leadsWith (p :: ps) cs = true) : p ∈ cs := by
  cases cs with
  | nil => simp [leadsWith] at h
  | cons c r =>
    simp only [leadsWith, Bool.and_eq_true, beq_iff_eq] at h
    rw [h.1]
    exact List.mem_cons_self c r

theorem listContains_head_mem {cs : List Char} (p : Char) (ps : List Char)
    (h : listContains cs (p :: ps) = true) : p ∈ cs := by
  induction cs with
  | nil => simp [listContains] at h
  | cons c r ih =>
    simp only [listContains, Bool.or_eq_true] at h
    rcases h with h | h
    · exact leadsWith_head_mem p ps h
    · exact List.mem_cons_of_mem c (ih h)

theorem seqSameLine_fst (pat1 pat2 : List Char) :
    ∀ (cs : List Char), seqSameLine pat1 pat2 cs = true → listContains cs pat1 = true := by
  intro cs
  induction cs with
  | nil => intro h; simp [seqSameLine] at h
  | cons c r ih =>
    intro h
    simp only [seqSameLine, Bool.or_eq_true, Bool.and_eq_true] at h
    rcases h with ⟨h1, -⟩ | h
    · simp [listContains, h1]
    · simp [listContains, ih h]

theorem leadsWith_map (f : Char → Char) :
    ∀ (pat cs : List Char), leadsWith pat cs = true →
      leadsWith (pat.map f) (cs.map f) = true := by
  intro pat
  induction pat with
  | nil => intro cs _; simp [leadsWith, List.map_nil]
  | cons p ps ih =>
    intro cs h
    cases cs with
    | nil => simp [leadsWith] at h
    | cons c r =>
      simp only [leadsWith, Bool.and_eq_true, beq_iff_eq, List.map_cons] at h ⊢
      exact ⟨by rw [h.1], ih r h.2⟩

theorem listContains_map (f : Char → Char) :
    ∀ (cs pat : List Char), listContains cs pat = true →
      listContains (cs.map f) (pat.map f) = true := by
  intro cs
  induction cs with
  | nil =>
    intro pat h
    simp only [listContains, List.isEmpty_iff] at h
    simp [h, listContains, List.map_nil]
  | cons c r ih =>
    intro pat h
    simp only [listContains, Bool.or_eq_true] at h
    simp only [List.map_cons, listContains, Bool.or_eq_true]
    rcases h with h | h
    · exact Or.inl (by simpa [List.map_cons] using leadsWith_map f pat (c :: r) h)
    · exact Or.inr (ih pat h)

theorem leadsWith_append_of :
    ∀ (pat cs ds : List Char), leadsWith pat cs = true → leadsWith pat (cs ++ ds) = true
  | [], _, _, _ => rfl
  | p :: ps, [], _, h => by simp [leadsWith] at h
  | p :: ps, c :: r, ds, h => by
    simp only [List.cons_append, leadsWith, Bool.and_eq_true] at h ⊢
    exact ⟨h.1, leadsWith_append_of ps r ds h.2⟩

theorem listContains_nil_pat : ∀ (cs : List Char), listContains cs [] = true := by
  intro cs
  cases cs <;> simp [listContains, leadsWith]

theorem listContains_append_of_left :
    ∀ (a b pat : List Char), listContains a pat = true → listContains (a ++ b) pat = true
  | [], b, pat, h => by
    simp only [listContains, List.isEmpty_iff] at h
    simpa [h] using listContains_nil_pat b
  | c :: r, b, pat, h => by
    simp only [listContains, Bool.or_eq_true] at h
    simp only [List.cons_append, listContains, Bool.or_eq_true]
    rcases h with h | h
    · exact Or.inl (by simpa [List.cons_append] using leadsWith_append_of pat (c :: r) b h)
    · exact Or.inr (listContains_append_of_left r b pat h)

theorem listContains_append_of_right :
    ∀ (a b pat : List Char), listContains b pat = true → listContains (a ++ b) pat = true
  | [], _, _, h => h
  | c :: r, b, pat, h => by
    simp only [List.cons_append, listContains, Bool.or_eq_true]
    exact Or.inr (listContains_append_of_right r b pat h)

theorem strOfLines_decomp :
    ∀ (ls : List String) (l : String), l ∈ ls →
      ∃ a b, (strOfLines ls).data = a ++ (l.data ++ b)
  | [], l, h => absurd h (List.not_mem_nil l)
  | [a], l, h => by
    have : l = a := by simpa using h
    subst this
    exact ⟨[], [], by simp [strOfLines]⟩
  | a :: b :: t, l, h => by
    rcases List.mem_cons.mp h with rfl | h2
    · exact ⟨[], '\n' :: (strOfLines (b :: t)).data, by rw [strOfLines_data_cons]; simp⟩
    · obtain ⟨x, y, hxy⟩ := strOfLines_decomp (b :: t) l h2
      exact ⟨a.data ++ '\n' :: x, y, by rw [strOfLines_data_cons, hxy]; simp⟩

theorem mem_contains_strOfLines (ls : List String) (l : String) (hl : l ∈ ls)
    (pat : List Char) (h : listContains l.data pat = true) :
    listContains (strOfLines ls).data pat = true := by
  obtain ⟨a, b, hab⟩ := strOfLines_decomp ls l hl
  rw [hab]
  exact listContains_append_of_right a _ pat (listContains_append_of_left l.data b pat h)

theorem strOfLines_data_mem :
    ∀ (ls : List String) (c : Char), c ∈ (strOfLines ls).data →
      c = '\n' ∨ ∃ l ∈ ls, c ∈ l.data
  | [], c, h => by
    rw [show (strOfLines []).data = [] from rfl] at h
    exact absurd h (List.not_mem_nil c)
  | [a], c, h => Or.inr ⟨a, by simp, h⟩
  | a :: b :: t, c, h => by
    rw [strOfLines_data_cons] at h
    simp only [List.mem_append, List.mem_cons] at h
    rcases h with h | h | h
    · exact Or.inr ⟨a, by simp, h⟩
    · exact Or.inl h
    · rcases strOfLines_data_mem (b :: t) c h with h2 | ⟨l, hl, hc⟩
      · exact Or.inl h2
      · exact Or.inr ⟨l, List.mem_cons_of_mem a hl, hc⟩

theorem uiBorder_toLower (d : Char) (h : uiBorderChar d = true) : Char.toLower d = d := by
  unfold uiBorderChar isJsWs at h
  simp only [Bool.or_eq_true, beq_iff_eq] at h
  repeat' rcases h with h | h
  all_goals decide

theorem uiOnly_letter_ctx (ls : List String)
    (h : ∀ l ∈ ls, isUiLine l = true)
    (hns : listContains (strOfLines ls).data "? for shortcuts".data = false)
    (ch : Char) (hch : ch ∈ lowerL (strOfLines ls).data)
    (hb : uiBorderChar ch = false) (hnl : ch ≠ '\n') :
    listContains (lowerL (strOfLines ls).data) "context left".data = true := by
  obtain ⟨d, hd, hdl⟩ := List.mem_map.mp (by simpa [lowerL] using hch)
  rcases strOfLines_data_mem ls d hd with h0 | ⟨l, hl, hdl2⟩
  · exfalso
    apply hnl
    rw [← hdl, h0]
    decide
  · have hui := h l hl
    unfold isUiLine sContains at hui
    simp only [Bool.or_eq_true, Bool.and_eq_true] at hui
    rcases hui with (hsc | hcl) | ⟨-, hall⟩
    · have hj := mem_contains_strOfLines ls l hl _ hsc
      rw [hns] at hj
      exact absurd hj (by decide)
    · have h1 := mem_contains_strOfLines ls l hl _ hcl
      have h2 := listContains_map Char.toLower _ _ h1
      have h3 : "context left".data.map Char.toLower = "context left".data := by decide
      rw [h3] at h2
      simpa [lowerL] using h2
    · have hbd : uiBorderChar d = true := List.all_eq_true.mp hall d hdl2
      have hfix := uiBorder_toLower d hbd
      rw [← hdl, hfix] at hb
      exact absurd hbd (by simp [hb])

theorem uiOnly_waiting_imp_indicators (ls : List String)
    (h : ∀ l ∈ ls, isUiLine l = true)
    (hw : shouldTriggerWaitingNotification ls = true) :
    indicatorsMatch ls = true := by
  simp only [shouldTriggerWaitingNotification, Bool.and_eq_true, Bool.not_eq_true'] at hw
  obtain ⟨hm, hns⟩ := hw
  suffices hctx : listContains (lowerL (strOfLines ls).data) "context left".data = true by
    simp only [indicatorsMatch, Bool.or_eq_true]
    tauto
  simp only [meaningfulWaitingMatch, Bool.or_eq_true] at hm
  rcases hm with ((((((h1 | h2) | h3) | h4) | h5) | h6) | h7)
  · exact uiOnly_letter_ctx ls h hns 'w'
      (listContains_head_mem 'w' "aiting".data (seqSameLine_fst _ _ _ h1))
      (by decide) (by decide)
  · exact uiOnly_letter_ctx ls h hns 'n'
      (listContains_head_mem 'n' "eed".data (seqSameLine_fst _ _ _ h2))
      (by decide) (by decide)
  · exact uiOnly_letter_ctx ls h hns 'p'
      (listContains_head_mem 'p' "lease".data (seqSameLine_fst _ _ _ h3))
      (by decide) (by decide)
  · exact uiOnly_letter_ctx ls h hns 'w'
      (listContains_head_mem 'w' "hat".data (seqSameLine_fst _ _ _ h4))
      (by decide) (by decide)
  · exact uiOnly_letter_ctx ls h hns 'd'
      (listContains_head_mem 'd' "o you want".data h5)
      (by decide) (by decide)
  · exact uiOnly_letter_ctx ls h hns 'w'
      (listContains_head_mem 'w' "ould you like".data h6)
      (by decide) (by decide)
  · exact h7

theorem indicators_respEnd (recent b p : List String)
    (hi : indicatorsMatch recent = true) :
    detectResponseCompletion recent b p = true := by
  simp only [detectResponseCompletion]
  split_ifs <;> simp [hi]

theorem analyze_noWaiting (s : MonitorState) (newLines currentContent freshCapture : List String)
    (h : shouldTriggerWaitingNotification newLines = true → indicatorsMatch newLines = true) :
    ∀ e ∈ (analyzeNewContent s newLines currentContent freshCapture).2, isWaitingEv e = false := by
  intro e he
  simp only [analyzeNewContent] at he
  repeat' split at he
  all_goals
    first
      | (simp only [List.mem_singleton] at he; subst he; rfl)
      | exact absurd he (List.not_mem_nil e)
      | (exfalso
         rename_i hnottc hst
         simp [indicators_respEnd, h hst] at hnottc)

/-- Claim C3 counterexample: two consecutive polls whose panes differ only in
the context-budget footer line (all other lines equal position by position),
yet the second poll emits a waiting event — the footer change escapes the
5-line diff window, so the fallback reclassifies the unchanged pane tail. -/
theorem claim_C3_counterexample :
    ((c3paneB.zip c3paneA).all (fun q => q.1 == q.2 || isFooterLine q.1) = true) ∧
    c3paneB.length = c3paneA.length ∧
    ((checkForChanges
        (checkForChanges (initialMonitorState "cx") (some c3paneA)).1
        (some c3paneB)).2.countP isWaitingEv = 1) := by
  decide

/-- Claim C3 (amended): when the poll's line diff is actually detected
(`_getNewLines` returns a non-empty list) and every detected new line is a
footer/status line, the cycle emits no waiting event: a `context left` footer
matches a completion indicator before the waiting check, and the other footer
shapes cannot match the waiting cues.  (When the footer change escapes the
diff window entirely, the fallback path reclassifies the unchanged pane tail
and can emit a waiting event — see the counterexample.) -/
theorem claim_C3 (s : MonitorState) (c2 : List String)
    (hU : ∀ l ∈ getNewLines s.lastPaneContent c2, isFooterLine l = true)
    (hNe : getNewLines s.lastPaneContent c2 ≠ []) :
    ∀ e ∈ (checkForChanges s (some c2)).2, isWaitingEv e = false := by
  have hU2 : ∀ l ∈ getNewLines s.lastPaneContent c2, isUiLine l = true := by
    intro l hl
    have := hU l hl
    simpa [isFooterLine] using this
  intro e he
  simp only [checkForChanges, captureContent, Option.getD_some] at he
  rw [List.mem_append] at he
  rcases he with he | he
  · split at he
    · split at he
      · exact analyze_noWaiting _ _ _ _
          (fun hst => uiOnly_waiting_imp_indicators _ hU2 hst) e he
      · rename_i hemp
        exfalso
        apply hNe
        simpa using hemp
    · simp at he
  · repeat' split at he
    all_goals first
      | (simp only [List.mem_singleton] at he; subst he; rfl)
      | simp at he

/-- Witness for C3: a running monitor whose next capture differs from the
remembered pane only in the footer line, with the footer inside the diff
window. -/
theorem claim_C3_witness :
    (∀ l ∈ getNewLines c3WitState.lastPaneContent c3WitCap, isFooterLine l = true) ∧
    getNewLines c3WitState.lastPaneContent c3WitCap ≠ [] ∧
    ∀ e ∈ (checkForChanges c3WitState (some c3WitCap)).2, isWaitingEv e = false :=
  ⟨by decide, by decide, claim_C3 c3WitState c3WitCap (by decide) (by decide)⟩

/-! ### Claim theorems: confirmation autopilot -/

theorem confirmGo_attempts_le (cap : Nat → Option String) (sendOk : Nat → Bool) :
    ∀ fuel attempts sc,
      (handleConfirmGo cap sendOk fuel attempts sc).attempts ≤ attempts + fuel := by
  intro fuel
  induction fuel with
  | zero => intro a sc; simp [handleConfirmGo]
  | succ n ih =>
    intro a sc
    simp only [handleConfirmGo]
    rcases hcap : cap (a + 1) with _ | o
    · dsimp only
      omega
    · rcases hb : branchFor o <;> simp only [hb] <;>
        (have g1 := ih (a + 1) (sendPlusEnter sendOk sc "2").2
         have g2 := ih (a + 1) (sendPlusEnter sendOk sc "1").2
         have g3 := ih (a + 1) (sendPlusEnter sendOk sc "y").2
         have g4 := ih (a + 1) (sc + 1)
         have g5 := ih (a + 1) sc
         omega)

theorem confirmGo_attempts_ge (cap : Nat → Option String) (sendOk : Nat → Bool) :
    ∀ fuel attempts sc,
      attempts ≤ (handleConfirmGo cap sendOk fuel attempts sc).attempts := by
  intro fuel
  induction fuel with
  | zero => intro a sc; simp [handleConfirmGo]
  | succ n ih =>
    intro a sc
    simp only [handleConfirmGo]
    rcases hcap : cap (a + 1) with _ | o
    · dsimp only
      omega
    · rcases hb : branchFor o <;> simp only [hb] <;>
        (have g1 := ih (a + 1) (sendPlusEnter sendOk sc "2").2
         have g2 := ih (a + 1) (sendPlusEnter sendOk sc "1").2
         have g3 := ih (a + 1) (sendPlusEnter sendOk sc "y").2
         have g4 := ih (a + 1) (sc + 1)
         have g5 := ih (a + 1) sc
         omega)

theorem count1500_append (xs ys : List CAction) :
    count1500 (xs ++ ys) = count1500 xs + count1500 ys := by
  simp [count1500]

theorem count1500_pre : count1500 [CAction.delayMs 1500, CAction.capturePane] = 1 := rfl

theorem count1500_preEnter :
    count1500 [CAction.delayMs 1500, CAction.capturePane, CAction.sendKeys "Enter"] = 1 := rfl

theorem count1500_d2000 : count1500 [CAction.delayMs 2000] = 0 := rfl

theorem count1500_sendPlusEnter (sendOk : Nat → Bool) (sc : Nat) (k : String) :
    count1500 (sendPlusEnter sendOk sc k).1 = 0 := by
  rcases h : sendOk sc <;> simp [sendPlusEnter, h, count1500]

theorem count1500_extra (c : Prop) [Decidable c] :
    count1500 (if c then [CAction.delayMs 2000] else []) = 0 := by
  split <;> rfl

theorem confirmGo_count1500 (cap : Nat → Option String) (sendOk : Nat → Bool) :
    ∀ fuel attempts sc,
      count1500 (handleConfirmGo cap sendOk fuel attempts sc).trace =
        (handleConfirmGo cap sendOk fuel attempts sc).attempts - attempts := by
  intro fuel
  induction fuel with
  | zero => intro a sc; simp [handleConfirmGo, count1500]
  | succ n ih =>
    intro a sc
    simp only [handleConfirmGo]
    rcases hcap : cap (a + 1) with _ | o
    · dsimp only
      simp [count1500_pre]
    · rcases hb : branchFor o <;> simp only [hb] <;>
        simp only [count1500_append, count1500_pre, count1500_preEnter, count1500_d2000,
          count1500_extra, count1500_sendPlusEnter, ih] <;>
        (have g1 := confirmGo_attempts_ge cap sendOk n (a + 1) (sendPlusEnter sendOk sc "2").2
         have g2 := confirmGo_attempts_ge cap sendOk n (a + 1) (sendPlusEnter sendOk sc "1").2
         have g3 := confirmGo_attempts_ge cap sendOk n (a + 1) (sendPlusEnter sendOk sc "y").2
         have g4 := confirmGo_attempts_ge cap sendOk n (a + 1) (sc + 1)
         have g5 := confirmGo_attempts_ge cap sendOk n (a + 1) sc
         omega)

theorem branchFor_nothingDetected (o : String) (h : matchesAnyBranch o = false) :
    branchFor o = .nothingDetected := by
  unfold branchFor
  split_ifs <;> simp_all [matchesAnyBranch]

theorem confirmGo_exhausted (cap : Nat → Option String) (sendOk : Nat → Bool) :
    ∀ fuel attempts sc,
      (∀ n, attempts < n → n ≤ attempts + fuel →
        ∃ o, cap n = some o ∧ matchesAnyBranch o = false) →
      (handleConfirmGo cap sendOk fuel attempts sc).outcome = .exhausted ∧
      (handleConfirmGo cap sendOk fuel attempts sc).attempts = attempts + fuel := by
  intro fuel
  induction fuel with
  | zero => intro a sc _; simp [handleConfirmGo]
  | succ n ih =>
    intro a sc h
    obtain ⟨o, hcap, hnb⟩ := h (a + 1) (by omega) (by omega)
    have hb := branchFor_nothingDetected o hnb
    have hrec := ih (a + 1) sc (fun m hm1 hm2 => h m (by omega) (by omega))
    simp only [handleConfirmGo, hcap, hb]
    simp [hrec.1, hrec.2]
    omega

/-- Claim C5: the confirmation-handling loop always performs at most 8
attempts, each attempt beginning with the fixed 1.5 s delay (the trace holds
exactly one 1500 ms delay per attempt); when no confirmation shape is ever
recognised, the ceiling is exhausted and the loop ends in the non-error
`exhausted` outcome, with the surrounding `injectCommand` still resolving
`success = true` for its caller. -/
theorem claim_C5 (cap : Nat → Option String) (sendOk : Nat → Bool)
    (h : ∀ n, 0 < n → n ≤ 8 → ∃ o, cap n = some o ∧ matchesAnyBranch o = false) :
    (∀ (cap2 : Nat → Option String) (sendOk2 : Nat → Bool),
      (handleConfirmations cap2 sendOk2).attempts ≤ 8 ∧
      count1500 (handleConfirmations cap2 sendOk2).trace =
        (handleConfirmations cap2 sendOk2).attempts) ∧
    (handleConfirmations cap sendOk).attempts = 8 ∧
    (handleConfirmations cap sendOk).outcome = .exhausted ∧
    (injectCommand none none none cap sendOk).success = true := by
  refine ⟨?_, ?_, ?_, rfl⟩
  · intro cap2 sendOk2
    constructor
    · have := confirmGo_attempts_le cap2 sendOk2 maxAttempts 0 0
      simpa [handleConfirmations, maxAttempts] using this
    · have := confirmGo_count1500 cap2 sendOk2 maxAttempts 0 0
      simpa [handleConfirmations] using this
  · exact (confirmGo_exhausted cap sendOk maxAttempts 0 0
      (fun n h1 h2 => h n h1 (by simpa [maxAttempts] using h2))).2
  · exact (confirmGo_exhausted cap sendOk maxAttempts 0 0
      (fun n h1 h2 => h n h1 (by simpa [maxAttempts] using h2))).1

theorem confirmGo_step_multi (cap : Nat → Option String) (sendOk : Nat → Bool)
    (fuel a sc : Nat) (o : String) (hcap : cap (a + 1) = some o)
    (hb : branchFor o = .multi) :
    handleConfirmGo cap sendOk (fuel + 1) a sc =
      ⟨[.delayMs 1500, .capturePane] ++ (sendPlusEnter sendOk sc "2").1 ++
          [.delayMs 2000] ++
          (handleConfirmGo cap sendOk fuel (a + 1) (sendPlusEnter sendOk sc "2").2).trace,
       (handleConfirmGo cap sendOk fuel (a + 1) (sendPlusEnter sendOk sc "2").2).attempts,
       (handleConfirmGo cap sendOk fuel (a + 1) (sendPlusEnter sendOk sc "2").2).outcome⟩ := by
  conv_lhs => rw [handleConfirmGo]
  simp only [hcap, hb]

theorem confirmGo_step_idle (cap : Nat → Option String) (sendOk : Nat → Bool)
    (fuel a sc : Nat) (o : String) (hcap : cap (a + 1) = some o)
    (hb : branchFor o = .idle) :
    handleConfirmGo cap sendOk (fuel + 1) a sc =
      ⟨[.delayMs 1500, .capturePane], a + 1, .idlePrompt⟩ := by
  conv_lhs => rw [handleConfirmGo]
  simp only [hcap, hb]

/-- Claim C4: when the captured pane shows "Do you want to proceed?" together
with the numbered option "2. Yes, and don't ask again", the autopilot sends
the `2` keystroke followed by Enter (choosing the durable option — the plain
"1"/"y" keys are never sent), and as soon as a later capture shows a bare
idle prompt with no pending dialog markers the loop stops with the successful
`idlePrompt` outcome after those two attempts. -/
theorem claim_C4 (o1 o2 : String) (cap : Nat → Option String) (sendOk : Nat → Bool)
    (hc1 : cap 1 = some o1) (hc2 : cap 2 = some o2)
    (hsend : sendOk 0 = true)
    (h1 : sContains o1 "Do you want to proceed?" = true)
    (h2 : sContains o1 "2. Yes, and don\x27t ask again" = true)
    (h3 : sContains o2 "> " = true)
    (h4 : sContains o2 "Do you want to proceed?" = false)
    (h5 : sContains o2 "1. Yes" = false)
    (h6 : sContains o2 "(y/n)" = false)
    (h7 : sContains o2 "â¯ 1. Yes" = false)
    (h8 : sContains o2 "â–· 1. Yes" = false)
    (h9 : sContains o2 "[Y/n]" = false)
    (h10 : sContains o2 "[y/N]" = false)
    (h11 : sContains o2 "Press Enter to continue" = false)
    (h12 : sContains o2 "Enter to confirm" = false)
    (h13 : sContains o2 "Press Enter" = false)
    (h14 : sContains o2 "Claudingâ€¦" = false)
    (h15 : sContains o2 "Waitingâ€¦" = false)
    (h16 : sContains o2 "Processingâ€¦" = false)
    (h17 : sContains o2 "Workingâ€¦" = false) :
    sendsOf (handleConfirmations cap sendOk).trace = ["2", "Enter"] ∧
    (handleConfirmations cap sendOk).outcome = .idlePrompt ∧
    (handleConfirmations cap sendOk).attempts = 2 := by
  have b1 : branchFor o1 = .multi := by
    simp [branchFor, multiCond, h1, h2]
  have b2 : branchFor o2 = .idle := by
    simp [branchFor, multiCond, singleCond, ynCond, enterCond, execCond, idleCond,
      h3, h4, h5, h6, h7, h8, h9, h10, h11, h12, h13, h14, h15, h16, h17]
  rw [show handleConfirmations cap sendOk = handleConfirmGo cap sendOk (7 + 1) 0 0 from rfl,
    confirmGo_step_multi cap sendOk 7 0 0 o1 (by simpa using hc1) b1,
    show (7 : Nat) = 6 + 1 from rfl,
    confirmGo_step_idle cap sendOk 6 1 (sendPlusEnter sendOk 0 "2").2 o2
      (by simpa using hc2) b2]
  simp [sendPlusEnter, hsend, sendsOf]

/-- Witness for C4: a concrete dialog pane followed by a bare idle prompt. -/
theorem claim_C4_witness :
    sendsOf (handleConfirmations
        (fun n => if n == 1 then
            some "Do you want to proceed?\n1. Yes\n2. Yes, and don\x27t ask again"
          else if n == 2 then some "> " else none)
        (fun _ => true)).trace = ["2", "Enter"] ∧
    (handleConfirmations
        (fun n => if n == 1 then
            some "Do you want to proceed?\n1. Yes\n2. Yes, and don\x27t ask again"
          else if n == 2 then some "> " else none)
        (fun _ => true)).outcome = .idlePrompt ∧
    (handleConfirmations
        (fun n => if n == 1 then
            some "Do you want to proceed?\n1. Yes\n2. Yes, and don\x27t ask again"
          else if n == 2 then some "> " else none)
        (fun _ => true)).attempts = 2 :=
  claim_C4 "Do you want to proceed?\n1. Yes\n2. Yes, and don\x27t ask again" "> "
    (fun n => if n == 1 then
        some "Do you want to proceed?\n1. Yes\n2. Yes, and don\x27t ask again"
      else if n == 2 then some "> " else none)
    (fun _ => true) rfl rfl rfl
    (by decide) (by decide) (by decide) (by decide) (by decide) (by decide) (by decide)
    (by decide) (by decide) (by decide) (by decide) (by decide) (by decide) (by decide)
    (by decide) (by decide) (by decide)

/-- Witness for C5: a pane that never shows any recognised shape. -/
theorem claim_C5_witness :
    (∀ n, 0 < n → n ≤ 8 →
      ∃ o, (fun (_ : Nat) => some "zzz") n = some o ∧ matchesAnyBranch o = false) ∧
    ((∀ (cap2 : Nat → Option String) (sendOk2 : Nat → Bool),
        (handleConfirmations cap2 sendOk2).attempts ≤ 8 ∧
        count1500 (handleConfirmations cap2 sendOk2).trace =
          (handleConfirmations cap2 sendOk2).attempts) ∧
      (handleConfirmations (fun _ => some "zzz") (fun _ => true)).attempts = 8 ∧
      (handleConfirmations (fun _ => some "zzz") (fun _ => true)).outcome = .exhausted ∧
      (injectCommand none none none (fun _ => some "zzz") (fun _ => true)).success = true) :=
  ⟨fun _ _ _ => ⟨"zzz", rfl, by decide⟩,
   claim_C5 (fun _ => some "zzz") (fun _ => true) (fun _ _ _ => ⟨"zzz", rfl, by decide⟩)⟩

end CodexRemote
